import Mathlib

/-!
# kstream: a shallow embedding of `src/kstream.c`

The kernel module scans physical memory in blocks of `MAX_ORDER_NR_PAGES`
pages, validates every block (`kstream_block_valid`), claims it, runs a
STREAM-like bandwidth kernel over it twice (`kstream_run_single_cache`,
`kstream_run_single_nocache`) and reports the best-of-10 timings
(`kstream_run_single`).  The scan itself is `kstream_fn`.

Conventions of the embedding:

* `unsigned long` and `uint64_t` values are natural numbers, every
  arithmetic result is reduced modulo `2 ^ 64` where the C code can wrap;
* kernel services that are not part of the module (the memory map, the
  clock, the stop flag, the contiguous allocator) are parameters;
* `MAX_ORDER_NR_PAGES` is the parameter `G`.
-/

namespace Kstream

/-! ## Machine words -/

/-- Number of values of a 64-bit word: `unsigned long` and `uint64_t` arithmetic wraps at `U64`. -/
def U64 : Nat := 2 ^ 64

/-- The constant `ULONG_MAX` of a 64-bit kernel. -/
def ULONG_MAX : Nat := U64 - 1

/-- Loop `for (i = 0; i < n; i++) s = body(i, s)`: the iterations run in the order `0, 1, ..., n-1`. -/
def forI {σ : Type} (body : Nat → σ → σ) : Nat → σ → σ
  | 0, s => s
  | k + 1, s => body k (forI body k s)

/-! ## The memory map seen by `kstream_block_valid` -/

/-- What the module reads of a `struct page`: its zone (`page_zone`) and its reserved flag (`PageReserved`). -/
structure Page where
  zone : Nat
  reserved : Bool
deriving DecidableEq, Repr

/-- The kernel services used by `kstream_block_valid`: `pfn_to_online_page` (`none` is the NULL
page of an offline or absent unit) and `zone_spans_pfn zone pfn`. -/
structure MemMap where
  pfn_to_online_page : Nat → Option Page
  zone_spans_pfn : Nat → Nat → Bool

/-- Modelled from the spec: the kernel macro `IS_ALIGNED(x, a)`, which is not part of the
module; a start address is aligned to the granularity when it is a multiple of it. -/
def IS_ALIGNED (x a : Nat) : Bool := x % a == 0

/-- Body of the loop of `kstream_block_valid` (lines 28-45), run for `count` consecutive units
starting at `pfn`; `count` is the number of iterations left, `end_pfn - pfn`.  Each unit is
checked in the order of the source: online, same zone, spanned by the zone, not reserved; the
first failing check returns `false`. -/
def kstream_block_valid_loop (mm : MemMap) (zone : Nat) : Nat → Nat → Bool
  | 0, _ => true
  | count + 1, pfn =>
    match mm.pfn_to_online_page pfn with
    | none => false
    | some page =>
      if page.zone != zone then false
      else if !mm.zone_spans_pfn zone pfn then false
      else if page.reserved then false
      else kstream_block_valid_loop mm zone count (pfn + 1)

/-- Function `kstream_block_valid(start_pfn)` (lines 15-47).  `none` is the fatal `BUG_ON` of
line 21; `end_pfn` is computed in `unsigned long`. -/
def kstream_block_valid (mm : MemMap) (G : Nat) (start_pfn : Nat) : Option Bool :=
  let end_pfn := (start_pfn + G) % U64
  if !IS_ALIGNED start_pfn G then none
  else
    match mm.pfn_to_online_page start_pfn with
    | none => some false
    | some page =>
      let zone := page.zone
      let pfn := (start_pfn + 1) % U64
      some (kstream_block_valid_loop mm zone (end_pfn - pfn) pfn)

/-! ## `kstream_detect_max_pfn` -/

/-- Function `kstream_detect_max_pfn` (lines 49-58).  `end_pfn` is the content of the local
variable when the loop starts (the source declares it without an initial value), `online_nodes`
the nodes that `for_each_online_node` visits, in order. -/
def kstream_detect_max_pfn (node_end_pfn : Nat → Nat) (online_nodes : List Nat) (end_pfn : Nat) :
    Nat :=
  online_nodes.foldl (fun acc i => max acc (node_end_pfn i)) end_pfn

/-! ## Memory, clock and the two bandwidth kernels -/

/-- Memory holding `uint64_t` elements, addressed in units of one element (8 bytes). -/
abbrev Mem := Nat → Nat

/-- Assignment `p[0] = v` for an element address `p`. -/
def store (m : Mem) (p v : Nat) : Mem := fun q => if q = p then v else m q

/-- What a kernel run does besides computing, in program order: clock readings (with the index
of the reading), cache flushes (start address in elements, length in bytes) and the four loops. -/
inductive KEvent where
  | ktime (idx : Nat)
  | clflush (ptr : Nat) (bytes : Nat)
  | copy
  | scale
  | add
  | triad
deriving DecidableEq, Repr

/-- State threaded through a block experiment: the memory, the number of clock readings taken so
far and the log of events. -/
structure Machine where
  mem : Mem
  reads : Nat
  log : List KEvent

/-- Call `ktime_get_raw_ns()`: the next reading of the clock, as a `u64`. -/
def ktime_get_raw_ns (clock : Nat → Nat) (s : Machine) : Nat × Machine :=
  (clock s.reads % U64, { s with reads := s.reads + 1, log := s.log ++ [KEvent.ktime s.reads] })

/-- Call `clflush_cache_range(p, size)`: evicts cache lines, the memory contents stay. -/
def clflush_cache_range (p bytes : Nat) (s : Machine) : Machine :=
  { s with log := s.log ++ [KEvent.clflush p bytes] }

/-- Loop `for (i = 0; i < array_size; i++) c[i] = a[i];` (lines 72-74). -/
def phase_copy (a c n : Nat) (m : Mem) : Mem :=
  forI (fun i m => store m (c + i) (m (a + i))) n m

/-- Loop `for (i = 0; i < array_size; i++) b[i] = scalar * c[i];` (lines 75-77). -/
def phase_scale (scalar b c n : Nat) (m : Mem) : Mem :=
  forI (fun i m => store m (b + i) (scalar * m (c + i) % U64)) n m

/-- Loop `for (i = 0; i < array_size; i++) c[i] = a[i] + b[i];` (lines 78-80). -/
def phase_add (a b c n : Nat) (m : Mem) : Mem :=
  forI (fun i m => store m (c + i) ((m (a + i) + m (b + i)) % U64)) n m

/-- Loop `for (i = 0; i < array_size; i++) a[i] = b[i] + scalar * c[i];` (lines 81-83). -/
def phase_triad (scalar a b c n : Nat) (m : Mem) : Mem :=
  forI (fun i m => store m (a + i) ((m (b + i) + scalar * m (c + i) % U64) % U64)) n m

/-- The four loops on a machine state, each leaving its mark in the log. -/
def run_copy (a c n : Nat) (s : Machine) : Machine :=
  { s with mem := phase_copy a c n s.mem, log := s.log ++ [KEvent.copy] }

/-- Scale loop on a machine state. -/
def run_scale (scalar b c n : Nat) (s : Machine) : Machine :=
  { s with mem := phase_scale scalar b c n s.mem, log := s.log ++ [KEvent.scale] }

/-- Add loop on a machine state. -/
def run_add (a b c n : Nat) (s : Machine) : Machine :=
  { s with mem := phase_add a b c n s.mem, log := s.log ++ [KEvent.add] }

/-- Triad loop on a machine state. -/
def run_triad (scalar a b c n : Nat) (s : Machine) : Machine :=
  { s with mem := phase_triad scalar a b c n s.mem, log := s.log ++ [KEvent.triad] }

/-- One iteration of the loop of `kstream_run_single_cache` (lines 69-87) on the pair
`(best, state)`. -/
def cache_iteration (clock : Nat → Nat) (a b c n : Nat) (bs : Nat × Machine) : Nat × Machine :=
  let scalar := 3
  let (t0, s) := ktime_get_raw_ns clock bs.2
  let s := run_copy a c n s
  let s := run_scale scalar b c n s
  let s := run_add a b c n s
  let s := run_triad scalar a b c n s
  let (t1, s) := ktime_get_raw_ns clock s
  let t := (t1 + U64 - t0) % U64
  (min bs.1 t, s)

/-- Function `kstream_run_single_cache(a, b, c, array_size)` (lines 60-91): returns `best` and
the state it leaves. -/
def kstream_run_single_cache (clock : Nat → Nat) (a b c n : Nat) (s : Machine) : Nat × Machine :=
  forI (fun _ bs => cache_iteration clock a b c n bs) 10 (ULONG_MAX, s)

/-- One iteration of the loop of `kstream_run_single_nocache` (lines 106-146) on the pair
`(best, state)`; `t` starts at 0 and every `t += t1 - t0` is a `u64` operation. -/
def nocache_iteration (clock : Nat → Nat) (a b c n : Nat) (bs : Nat × Machine) : Nat × Machine :=
  let scalar := 3
  let t := 0
  let s := clflush_cache_range a (n * 8) bs.2
  let s := clflush_cache_range c (n * 8) s
  let (t0, s) := ktime_get_raw_ns clock s
  let s := run_copy a c n s
  let (t1, s) := ktime_get_raw_ns clock s
  let t := (t + (t1 + U64 - t0) % U64) % U64
  let s := clflush_cache_range b (n * 8) s
  let s := clflush_cache_range c (n * 8) s
  let (t0, s) := ktime_get_raw_ns clock s
  let s := run_scale scalar b c n s
  let (t1, s) := ktime_get_raw_ns clock s
  let t := (t + (t1 + U64 - t0) % U64) % U64
  let s := clflush_cache_range a (n * 8) s
  let s := clflush_cache_range b (n * 8) s
  let s := clflush_cache_range c (n * 8) s
  let (t0, s) := ktime_get_raw_ns clock s
  let s := run_add a b c n s
  let (t1, s) := ktime_get_raw_ns clock s
  let t := (t + (t1 + U64 - t0) % U64) % U64
  let s := clflush_cache_range a (n * 8) s
  let s := clflush_cache_range b (n * 8) s
  let s := clflush_cache_range c (n * 8) s
  let (t0, s) := ktime_get_raw_ns clock s
  let s := run_triad scalar a b c n s
  let (t1, s) := ktime_get_raw_ns clock s
  let t := (t + (t1 + U64 - t0) % U64) % U64
  (min bs.1 t, s)

/-- Function `kstream_run_single_nocache(a, b, c, array_size)` (lines 93-150). -/
def kstream_run_single_nocache (clock : Nat → Nat) (a b c n : Nat) (s : Machine) :
    Nat × Machine :=
  forI (fun _ bs => nocache_iteration clock a b c n bs) 10 (ULONG_MAX, s)

/-! ## One block experiment: `kstream_run_single` -/

/-- Modelled from the spec: the kernel macro `ALIGN_DOWN(x, a)`, which is not part of the
module, floors `x` to a whole number of `a`-byte elements. -/
def ALIGN_DOWN (x a : Nat) : Nat := x - x % a

/-- Local `array_bytes` of `kstream_run_single` (line 155), in terms of `total_bytes`, for a
`total_bytes` in the non-negative range of the C `int` that holds it (below `2 ^ 31`), where no
conversion between the C types changes a value; `array_bytes_c` is the same line with the
conversions. -/
def array_bytes (total_bytes : Nat) : Nat := ALIGN_DOWN (total_bytes / 3) 8

/-- Local `array_size` of `kstream_run_single` (line 156), elements per array, for a
`total_bytes` in the non-negative range of the C `int` that holds it (below `2 ^ 31`);
`array_size_c` is the same line with the conversions of the C types. -/
def array_size (total_bytes : Nat) : Nat := array_bytes total_bytes / 8

/-- Conversion of a value to a C `int`: 32 bits, two's complement. -/
def to_int (x : Int) : Int := (x + 2 ^ 31) % 2 ^ 32 - 2 ^ 31

/-- Conversion of a value to a C `unsigned long`: 64 bits. -/
def to_ulong (x : Int) : Int := x % 2 ^ 64

/-- Modelled from the spec: the kernel macro `ALIGN_DOWN(x, a)`, which is not part of the
module, on the `unsigned long` operands that line 155 gives it (its second argument is a
`sizeof`, which converts the first): `x` floored to a whole number of `a`-byte elements. -/
def ALIGN_DOWN_c (x a : Int) : Int := x - x % a

/-- Line 155 with the types of the C code: `total_bytes` is an `int`, `total_bytes / 3` is an
`int` division (towards zero), `ALIGN_DOWN(x, sizeof(uint64_t))` works on `x` converted to
`unsigned long`, and the result is stored in the `int` `array_bytes`. -/
def array_bytes_c (total_bytes : Int) : Int :=
  let x := Int.tdiv (to_int total_bytes) 3
  to_int (ALIGN_DOWN_c (to_ulong x) 8)

/-- Line 156 with the types of the C code: `array_bytes / sizeof(uint64_t)` is a division of
`unsigned long` values, stored in the `int` `array_size`. -/
def array_size_c (total_bytes : Int) : Int :=
  to_int (to_ulong (array_bytes_c total_bytes) / 8)

/-- Pointers `a`, `b`, `c` of `kstream_run_single` (lines 157-159), in element units, for a
block whose storage starts at element address `base`. -/
def array_ptrs (total_bytes base : Nat) : Nat × Nat × Nat :=
  let a := base
  let b := a + array_size total_bytes
  let c := b + array_size total_bytes
  (a, b, c)

/-- Initialisation loop of `kstream_run_single` (lines 164-168). -/
def kstream_seed (a b c n : Nat) (m : Mem) : Mem :=
  forI (fun i m => store (store (store m (a + i) 2) (b + i) 2) (c + i) 0) n m

/-- One pass of the four loops in the order of the source (lines 72-83), with `scalar = 3`. -/
def kstream_pass (a b c n : Nat) (m : Mem) : Mem :=
  phase_triad 3 a b c n (phase_add a b c n (phase_scale 3 b c n (phase_copy a c n m)))

/-- Validation loop of `kstream_run_single` (lines 174-181), `count` iterations starting at
index `i` (the source starts at `i = 1` and runs `array_size - 1` iterations); `false` is the
early `return -EIO`. -/
def kstream_validate_loop (m : Mem) (a b c : Nat) : Nat → Nat → Bool
  | 0, _ => true
  | count + 1, i =>
    if m (a + (i - 1)) != m (a + i) || m (b + (i - 1)) != m (b + i)
        || m (c + (i - 1)) != m (c + i) then false
    else kstream_validate_loop m a b c count (i + 1)

/-- How a call of `kstream_run_single` ends: the mismatch report with `return -EIO`, the report
line with the two figures in the order of the `printk` (uncached, cached) with `return 0`, or a
division by zero. -/
inductive Outcome where
  | mismatch
  | report (nocache_figure cache_figure : Nat)
  | divide_error
deriving DecidableEq, Repr

/-- Value returned by `kstream_run_single`, a `uint64_t`: `-EIO` is `2 ^ 64 - 5`. -/
def Outcome.ret : Outcome → Option Nat
  | Outcome.mismatch => some (U64 - 5)
  | Outcome.report _ _ => some 0
  | Outcome.divide_error => none

/-- Lines 173-192 of `kstream_run_single` on the memory `m` found after the two runs, with the
two durations `tc` and `tnc`. -/
def kstream_run_single_tail (m : Mem) (a b c n tc tnc : Nat) : Outcome :=
  if !kstream_validate_loop m a b c (n - 1) 1 then Outcome.mismatch
  else
    let accessed_bytes := 10 * 8 * n % U64
    if tnc = 0 ∨ tc = 0 then Outcome.divide_error
    else Outcome.report (accessed_bytes * 1000 % U64 / tnc) (accessed_bytes * 1000 % U64 / tc)

/-- Lines 154-171 of `kstream_run_single`: the pointers, the initialisation loop and the two
kernel runs; returns `tc`, `tnc` and the state after the runs.  `total_bytes` is
`MAX_ORDER_NR_PAGES << PAGE_SHIFT`, `virt pfn` the element address of
`phys_to_virt(page_to_phys(pfn_to_page(pfn)))`. -/
def kstream_run_single_runs (clock : Nat → Nat) (total_bytes : Nat) (virt : Nat → Nat)
    (pfn : Nat) (s : Machine) : Nat × Nat × Machine :=
  let n := array_size total_bytes
  let a := (array_ptrs total_bytes (virt pfn)).1
  let b := (array_ptrs total_bytes (virt pfn)).2.1
  let c := (array_ptrs total_bytes (virt pfn)).2.2
  let s := { s with mem := kstream_seed a b c n s.mem }
  let r := kstream_run_single_cache clock a b c n s
  let tc := r.1
  let r := kstream_run_single_nocache clock a b c n r.2
  let tnc := r.1
  (tc, tnc, r.2)

/-- Function `kstream_run_single(pfn)` (lines 152-193): the runs, then the validation and the
report on the memory they left. -/
def kstream_run_single (clock : Nat → Nat) (total_bytes : Nat) (virt : Nat → Nat) (pfn : Nat)
    (s : Machine) : Outcome × Machine :=
  let n := array_size total_bytes
  let a := (array_ptrs total_bytes (virt pfn)).1
  let b := (array_ptrs total_bytes (virt pfn)).2.1
  let c := (array_ptrs total_bytes (virt pfn)).2.2
  let r := kstream_run_single_runs clock total_bytes virt pfn s
  let tc := r.1
  let tnc := r.2.1
  (kstream_run_single_tail r.2.2.mem a b c n tc tnc, r.2.2)

/-! ## The scan driver: `kstream_fn` -/

/-- Where the worker is: in the scan loop (lines 200-213), at the head of the idle loop (lines
217-221), returned (line 223), or dead on the `BUG_ON` of the validator. -/
inductive Phase where
  | scanning
  | idle_wait
  | stopped
  | bug
deriving DecidableEq, Repr

/-- What the worker does, in program order. -/
inductive Event where
  | validate (pfn : Nat) (ok : Bool)
  | claim (pfn : Nat) (end_pfn : Nat) (ret : Int)
  | experiment (pfn : Nat) (ret : Nat)
  | release (pfn : Nat) (nr_pages : Nat)
  | resched
  | idle
deriving DecidableEq, Repr

/-- Everything `kstream_fn` depends on: the global `kstream_max_pfn`, the granularity
`MAX_ORDER_NR_PAGES`, the memory map, the answer of the k-th call of `kthread_should_stop()`,
the return value of `alloc_contig_range` (by number of stop polls made so far and start
address) and the value that `kstream_run_single` returns for a block (the driver discards it). -/
structure Env where
  max_pfn : Nat
  G : Nat
  mm : MemMap
  kthread_should_stop : Nat → Bool
  alloc_contig_range : Nat → Nat → Int
  run_single : Nat → Nat

/-- State of the worker: phase, loop variable `pfn`, number of calls of `kthread_should_stop()`
made so far, events so far. -/
structure Worker where
  phase : Phase
  pfn : Nat
  polls : Nat
  trace : List Event

/-- Start of `kstream_fn`: `pfn = 0`, nothing done yet. -/
def kstream_fn_init : Worker := ⟨Phase.scanning, 0, 0, []⟩

/-- Loop increment `pfn += MAX_ORDER_NR_PAGES` in `unsigned long`. -/
def next_pfn (env : Env) (w : Worker) : Worker :=
  { w with pfn := (w.pfn + env.G) % U64 }

/-- One turn of `kstream_fn`: one evaluation of the `for` condition followed by one iteration
of the scan loop (lines 200-213), or one evaluation of the `while` condition followed by one
iteration of the idle loop (lines 217-221). -/
def kstream_fn_step (env : Env) (w : Worker) : Worker :=
  match w.phase with
  | Phase.scanning =>
    if w.pfn < env.max_pfn then
      let stop := env.kthread_should_stop w.polls
      let w := { w with polls := w.polls + 1 }
      if stop then { w with phase := Phase.idle_wait }
      else
        match kstream_block_valid env.mm env.G w.pfn with
        | none => { w with phase := Phase.bug }
        | some false => next_pfn env { w with trace := w.trace ++ [Event.validate w.pfn false] }
        | some true =>
          let ret := env.alloc_contig_range w.polls w.pfn
          let w := { w with trace := w.trace ++
            [Event.validate w.pfn true, Event.claim w.pfn ((w.pfn + env.G) % U64) ret] }
          if ret ≠ 0 then next_pfn env w
          else
            next_pfn env { w with trace := w.trace ++
              [Event.experiment w.pfn (env.run_single w.pfn), Event.release w.pfn env.G,
               Event.resched] }
    else { w with phase := Phase.idle_wait }
  | Phase.idle_wait =>
    let stop := env.kthread_should_stop w.polls
    let w := { w with polls := w.polls + 1 }
    if stop then { w with phase := Phase.stopped }
    else { w with trace := w.trace ++ [Event.idle] }
  | Phase.stopped => w
  | Phase.bug => w

/-- The worker after `n` turns. -/
def kstream_fn_run (env : Env) : Nat → Worker → Worker
  | 0, w => w
  | n + 1, w => kstream_fn_step env (kstream_fn_run env n w)

/-- Address of a validation event: the addresses the scan hands to the validator are the
`validated` entries of the trace. -/
def Event.validated : Event → Option Nat
  | Event.validate pfn _ => some pfn
  | _ => none

/-! ## Quantities the timing claims speak about -/

/-- Value of `t1 - t0`, computed in `uint64_t`, when `t0` is reading number `i` of the clock and
`t1` is the next reading. -/
def elapsed (clock : Nat → Nat) (i : Nat) : Nat :=
  (clock (i + 1) % U64 + U64 - clock i % U64) % U64

/-- Value of `t` at line 146, in iteration `k` of `kstream_run_single_nocache` when `r` clock
readings were taken before the call: `t = 0` followed by the four `t += t1 - t0` of lines 115,
124, 134 and 144, each in `uint64_t`.  The iteration takes 8 readings, two around each loop. -/
def nocache_sum (clock : Nat → Nat) (r k : Nat) : Nat :=
  let t := 0
  let t := (t + elapsed clock (r + 8 * k)) % U64
  let t := (t + elapsed clock (r + 8 * k + 2)) % U64
  let t := (t + elapsed clock (r + 8 * k + 4)) % U64
  let t := (t + elapsed clock (r + 8 * k + 6)) % U64
  t

/-- Events of iteration `k` of `kstream_run_single_cache`: one pair of readings around the four
loops. -/
def cache_events (r k : Nat) : List KEvent :=
  [KEvent.ktime (r + 2 * k), KEvent.copy, KEvent.scale, KEvent.add, KEvent.triad,
   KEvent.ktime (r + 2 * k + 1)]

/-- Events of iteration `k` of `kstream_run_single_nocache`: before each loop the flushes of
the arrays it touches, then a pair of readings around the loop alone. -/
def nocache_events (a b c n r k : Nat) : List KEvent :=
  [KEvent.clflush a (n * 8), KEvent.clflush c (n * 8),
   KEvent.ktime (r + 8 * k), KEvent.copy, KEvent.ktime (r + 8 * k + 1),
   KEvent.clflush b (n * 8), KEvent.clflush c (n * 8),
   KEvent.ktime (r + 8 * k + 2), KEvent.scale, KEvent.ktime (r + 8 * k + 3),
   KEvent.clflush a (n * 8), KEvent.clflush b (n * 8), KEvent.clflush c (n * 8),
   KEvent.ktime (r + 8 * k + 4), KEvent.add, KEvent.ktime (r + 8 * k + 5),
   KEvent.clflush a (n * 8), KEvent.clflush b (n * 8), KEvent.clflush c (n * 8),
   KEvent.ktime (r + 8 * k + 6), KEvent.triad, KEvent.ktime (r + 8 * k + 7)]

/-! ## The validator with a record of its lookups -/

/-- The loop of `kstream_block_valid` (lines 28-45) once more, returning next to the verdict
the units handed to `pfn_to_online_page`, in the order of the calls. -/
def kstream_block_valid_loop_probes (mm : MemMap) (zone : Nat) : Nat → Nat → Bool × List Nat
  | 0, _ => (true, [])
  | count + 1, pfn =>
    match mm.pfn_to_online_page pfn with
    | none => (false, [pfn])
    | some page =>
      if page.zone != zone then (false, [pfn])
      else if !mm.zone_spans_pfn zone pfn then (false, [pfn])
      else if page.reserved then (false, [pfn])
      else
        let r := kstream_block_valid_loop_probes mm zone count (pfn + 1)
        (r.1, pfn :: r.2)

/-- Function `kstream_block_valid(start_pfn)` (lines 15-47) once more, returning next to the
verdict the units handed to `pfn_to_online_page`, in the order of the calls. -/
def kstream_block_valid_probes (mm : MemMap) (G : Nat) (start_pfn : Nat) :
    Option (Bool × List Nat) :=
  let end_pfn := (start_pfn + G) % U64
  if !IS_ALIGNED start_pfn G then none
  else
    match mm.pfn_to_online_page start_pfn with
    | none => some (false, [start_pfn])
    | some page =>
      let zone := page.zone
      let pfn := (start_pfn + 1) % U64
      let r := kstream_block_valid_loop_probes mm zone (end_pfn - pfn) pfn
      some (r.1, start_pfn :: r.2)


/-! ## Observations on the trace of the scan -/

/-- An event with the value returned by the experiment blanked out. -/
def Event.forget_ret : Event → Event
  | Event.experiment pfn _ => Event.experiment pfn 0
  | e => e


/-! ## Concrete inputs used by the evaluation theorems -/

/-- A machine with zeroed memory on which no clock reading was taken yet. -/
def machine0 : Machine := ⟨fun _ => 0, 0, []⟩

/-- A clock that advances by one unit between consecutive readings. -/
def steady_clock : Nat → Nat := fun i => i

/-- The steady clock with a stall of 1000 units between the readings 6 and 7, which are `t0`
and `t1` of iteration 3 of the cached kernel. -/
def stalled_clock : Nat → Nat := fun i => if 7 ≤ i then i + 1000 else i

/-- A memory map in which every unit is online, in zone 0 and spanned by it, and exactly the
unit 0 is reserved. -/
def mm_first_reserved : MemMap where
  pfn_to_online_page := fun p => some ⟨0, p == 0⟩
  zone_spans_pfn := fun _ _ => true

/-- End addresses of a machine with a single node, node 0, whose memory ends at address 50. -/
def one_node_end_pfn : Nat → Nat := fun _ => 50

/-- A memory in which every element holds 7. -/
def uniform_mem : Mem := fun _ => 7

/-- A clock that advances by one unit every 16 readings: consecutive readings are often equal. -/
def coarse_clock : Nat → Nat := fun i => i / 16

/-- A memory map in which every unit is online, in zone 0, spanned by it and not reserved. -/
def mm_all_valid : MemMap where
  pfn_to_online_page := fun _ => some ⟨0, false⟩
  zone_spans_pfn := fun _ _ => true

/-- A scan over 10 units in blocks of 4 in which the stop signal is raised from the start; every
block is valid and every claim would succeed. -/
def env_stopped_at_start : Env where
  max_pfn := 10
  G := 4
  mm := mm_all_valid
  kthread_should_stop := fun _ => true
  alloc_contig_range := fun _ _ => 0
  run_single := fun _ => 0

/-- A scan over 10 units in blocks of 4 in which the second poll of the stop signal, at the top
of the step for address 4, is the first to answer true; every block is valid and every claim
succeeds. -/
def env_stopped_at_second : Env where
  max_pfn := 10
  G := 4
  mm := mm_all_valid
  kthread_should_stop := fun k => decide (1 ≤ k)
  alloc_contig_range := fun _ _ => 0
  run_single := fun _ => 0

/-- A scan over 10 units in blocks of 4 in which no stop signal is raised, every block is valid
and every claim fails with `-EBUSY` (-16). -/
def env_claims_fail : Env where
  max_pfn := 10
  G := 4
  mm := mm_all_valid
  kthread_should_stop := fun _ => false
  alloc_contig_range := fun _ _ => -16
  run_single := fun _ => 0

/-- A scan over 10 units in blocks of 4 in which no stop signal is raised, every block is valid,
every claim succeeds and every experiment returns `-EIO`. -/
def env_experiments_fail : Env where
  max_pfn := 10
  G := 4
  mm := mm_all_valid
  kthread_should_stop := fun _ => false
  alloc_contig_range := fun _ _ => 0
  run_single := fun _ => U64 - 5

/-- A scan over 10 units in blocks of 4 in which no stop signal is raised, every block is valid
and every claim succeeds. -/
def env_all_succeed : Env where
  max_pfn := 10
  G := 4
  mm := mm_all_valid
  kthread_should_stop := fun _ => false
  alloc_contig_range := fun _ _ => 0
  run_single := fun _ => 0


/-- A clock that stands still: every reading is 1000. -/
def frozen_clock : Nat → Nat := fun _ => 1000

/-- A memory map in which every unit is online, in zone 0 and spanned by it, and exactly the
unit `2 ^ 64 - 3`, the second unit of the topmost block of 4 units, is reserved. -/
def mm_top_second_reserved : MemMap where
  pfn_to_online_page := fun p => some ⟨0, p == U64 - 3⟩
  zone_spans_pfn := fun _ _ => true

/-- A scan in blocks of 1024 units with the maximum address `2 ^ 64 - 1`; no stop signal is
raised, every unit is valid and every claim fails with `-EBUSY` (-16). -/
def env_wrap_claims_fail : Env where
  max_pfn := U64 - 1
  G := 1024
  mm := mm_all_valid
  kthread_should_stop := fun _ => false
  alloc_contig_range := fun _ _ => -16
  run_single := fun _ => 0


/-! ## Theorems -/

/-! ### The validator -/

/-- The loop of `kstream_block_valid` returns `true` exactly when each of the `count` units it
walks is online, in the zone of the first unit, spanned by that zone and not reserved. -/
theorem kstream_block_valid_loop_iff (mm : MemMap) (zone : Nat) :
    ∀ count pfn, kstream_block_valid_loop mm zone count pfn = true ↔
      ∀ k, k < count → ∃ page, mm.pfn_to_online_page (pfn + k) = some page ∧
        page.zone = zone ∧ mm.zone_spans_pfn zone (pfn + k) = true ∧ page.reserved = false := by
  intro count
  induction count with
  | zero => intro pfn; simp [kstream_block_valid_loop]
  | succ count ih =>
    intro pfn
    constructor
    · intro h k hk
      unfold kstream_block_valid_loop at h
      cases hp : mm.pfn_to_online_page pfn with
      | none => simp [hp] at h
      | some page =>
        simp only [hp] at h
        by_cases hz : page.zone = zone
        · by_cases hs : mm.zone_spans_pfn zone pfn = true
          · by_cases hr : page.reserved = true
            · simp [hz, hs, hr] at h
            · simp [hz, hs, hr] at h
              cases k with
              | zero => exact ⟨page, by simpa using hp, hz, by simpa using hs, by simpa using hr⟩
              | succ k =>
                have := (ih (pfn + 1)).1 h k (by omega)
                rwa [show pfn + 1 + k = pfn + (k + 1) by omega] at this
          · simp [hz, hs] at h
        · simp [hz] at h
    · intro h
      obtain ⟨page, hp, hz, hs, hr⟩ := h 0 (by omega)
      simp only [Nat.add_zero] at hp hs
      unfold kstream_block_valid_loop
      simp only [hp]
      simp [hz, hs, hr]
      apply (ih (pfn + 1)).2
      intro k hk
      have := h (k + 1) (by omega)
      rwa [show pfn + (k + 1) = pfn + 1 + k by omega] at this

/-- Claim C1, evaluation of the code at the failing input: with `G = 4`, start address 0 and a
memory map in which every unit is online, in one zone and spanned by it, but the first unit of
the block is reserved, `kstream_block_valid` returns `true`. -/
theorem kstream_block_valid_accepts_reserved_first_unit :
    IS_ALIGNED 0 4 = true ∧
    (∃ page, mm_first_reserved.pfn_to_online_page 0 = some page ∧ page.reserved = true) ∧
    kstream_block_valid mm_first_reserved 4 0 = some true := by
  refine ⟨by decide, ⟨⟨0, true⟩, by decide, rfl⟩, by decide⟩

/-! ### The maximum address -/

/-- The value returned by `kstream_detect_max_pfn` is the maximum of the initial content of
`end_pfn` and of what the loop computes from 0. -/
theorem kstream_detect_max_pfn_init (node_end_pfn : Nat → Nat) (online_nodes : List Nat)
    (end_pfn : Nat) :
    kstream_detect_max_pfn node_end_pfn online_nodes end_pfn =
      max end_pfn (kstream_detect_max_pfn node_end_pfn online_nodes 0) := by
  unfold kstream_detect_max_pfn
  induction online_nodes generalizing end_pfn with
  | nil => simp
  | cons i rest ih =>
    simp only [List.foldl_cons]
    rw [ih (max end_pfn (node_end_pfn i)), ih (max 0 (node_end_pfn i))]
    simp [max_assoc]

/-- Claim C8, evaluation of the code at the failing input: with one online node whose end
address is 50 and the value 100 left in the local `end_pfn`, `kstream_detect_max_pfn` returns
100, which is not the end address of any online node. -/
theorem kstream_detect_max_pfn_returns_stale_value :
    kstream_detect_max_pfn one_node_end_pfn [0] 100 = 100 ∧ one_node_end_pfn 0 = 50 := by
  refine ⟨by decide, rfl⟩

/-! ### The layout of the three arrays -/

/-- For a `total_bytes` in the non-negative range of the C `int`, the conversions between the
C types of lines 155-156 change no value: `array_bytes` and `array_size` are what the typed
computation gives. -/
theorem array_size_c_eq (total_bytes : Nat) (hint : total_bytes < 2 ^ 31) :
    array_bytes_c (total_bytes : Int) = ((array_bytes total_bytes : Nat) : Int) ∧
    array_size_c (total_bytes : Int) = ((array_size total_bytes : Nat) : Int) := by
  have h1 : to_int (total_bytes : Int) = (total_bytes : Int) := by
    unfold to_int
    omega
  have h2 : Int.tdiv (total_bytes : Int) 3 = ((total_bytes / 3 : Nat) : Int) :=
    (Int.ofNat_tdiv total_bytes 3).symm
  have hb : array_bytes_c (total_bytes : Int) = ((array_bytes total_bytes : Nat) : Int) := by
    unfold array_bytes_c array_bytes ALIGN_DOWN ALIGN_DOWN_c
    simp only [h1, h2]
    unfold to_int to_ulong
    omega
  refine ⟨hb, ?_⟩
  unfold array_size_c array_size
  rw [hb]
  have hle : array_bytes total_bytes ≤ total_bytes / 3 := by
    unfold array_bytes ALIGN_DOWN
    omega
  unfold to_int to_ulong
  omega

/-- Beyond the range of the `int` the typed computation goes negative: a `total_bytes` of
`2 ^ 31` is stored as `-2 ^ 31` and gives an element count of -89478486. -/
theorem array_size_c_wraps : array_size_c (2 ^ 31) = -89478486 := by
  decide

/-- Claim C3: for every block size `total_bytes` that the `int` of line 154 can hold, the
element count computed by lines 155-156 with their C types is
`ALIGN_DOWN(total_bytes / 3, 8) / 8 = floor(total_bytes / 3 / 8)`, three arrays of that many
8-byte elements fit in `total_bytes`, the pointers are `a = base`, `b = a + n`, `c = a + 2n`,
and the byte ranges of `a`, `b`, `c` follow each other without overlap inside the block
`[8 * base, 8 * base + total_bytes)`. -/
theorem array_layout_disjoint_in_block (total_bytes base : Nat) (hint : total_bytes < 2 ^ 31) :
    array_size_c (total_bytes : Int) = ((array_size total_bytes : Nat) : Int) ∧
    array_size total_bytes = total_bytes / 3 / 8 ∧
    3 * array_size total_bytes * 8 ≤ total_bytes ∧
    (array_ptrs total_bytes base).1 = base ∧
    (array_ptrs total_bytes base).2.1 = base + array_size total_bytes ∧
    (array_ptrs total_bytes base).2.2 = base + 2 * array_size total_bytes ∧
    8 * base ≤ 8 * (array_ptrs total_bytes base).1 ∧
    8 * ((array_ptrs total_bytes base).1 + array_size total_bytes) ≤
      8 * (array_ptrs total_bytes base).2.1 ∧
    8 * ((array_ptrs total_bytes base).2.1 + array_size total_bytes) ≤
      8 * (array_ptrs total_bytes base).2.2 ∧
    8 * ((array_ptrs total_bytes base).2.2 + array_size total_bytes) ≤
      8 * base + total_bytes := by
  have hn : array_size total_bytes = total_bytes / 3 / 8 := by
    unfold array_size array_bytes ALIGN_DOWN
    omega
  have h3 : 3 * array_size total_bytes * 8 ≤ total_bytes := by omega
  refine ⟨(array_size_c_eq total_bytes hint).2, hn, h3, ?_, ?_, ?_, ?_, ?_, ?_, ?_⟩ <;>
    simp only [array_ptrs] <;> omega

/-- Witness for C3: a block of 4 MiB (1024 pages of 4096 bytes) at element address 0 holds
three arrays of 174762 elements each. -/
theorem array_layout_disjoint_in_block_witness :
    array_size_c ((4194304 : Nat) : Int) = ((array_size 4194304 : Nat) : Int) ∧
    array_size 4194304 = 4194304 / 3 / 8 ∧
    3 * array_size 4194304 * 8 ≤ 4194304 ∧
    8 * ((array_ptrs 4194304 0).2.2 + array_size 4194304) ≤ 8 * 0 + 4194304 :=
  ⟨(array_layout_disjoint_in_block 4194304 0 (by decide)).1,
   (array_layout_disjoint_in_block 4194304 0 (by decide)).2.1,
   (array_layout_disjoint_in_block 4194304 0 (by decide)).2.2.1,
   (array_layout_disjoint_in_block 4194304 0 (by decide)).2.2.2.2.2.2.2.2.2⟩

/-! ### The four loops -/

/-- A loop that stores to `d + i` in iteration `i` leaves every other address alone. -/
theorem forI_store_other (d : Nat) (g : Nat → Mem → Nat) (n : Nat) (m : Mem) (q : Nat)
    (hq : ∀ i, i < n → q ≠ d + i) :
    forI (fun i m => store m (d + i) (g i m)) n m q = m q := by
  induction n with
  | zero => rfl
  | succ k ih =>
    have hk : q ≠ d + k := hq k (by omega)
    simp only [forI, store, hk, if_false]
    exact ih (fun i hi => hq i (by omega))

/-- A loop that stores to `d + i` in iteration `i` leaves at `d + j` what iteration `j` stored. -/
theorem forI_store_at (d : Nat) (g : Nat → Mem → Nat) (n : Nat) (m : Mem) (j : Nat)
    (hj : j < n) :
    forI (fun i m => store m (d + i) (g i m)) n m (d + j) =
      g j (forI (fun i m => store m (d + i) (g i m)) j m) := by
  induction n with
  | zero => omega
  | succ k ih =>
    by_cases hjk : j = k
    · subst hjk
      simp [forI, store]
    · have hne : d + j ≠ d + k := by omega
      simp only [forI, store, hne, if_false]
      exact ih (by omega)

/-- Copy loop: element `j` of `c` receives element `j` of `a`. -/
theorem phase_copy_at (a c n : Nat) (m : Mem) (h : a + n ≤ c) (j : Nat) (hj : j < n) :
    phase_copy a c n m (c + j) = m (a + j) := by
  unfold phase_copy
  rw [forI_store_at c (fun i m => m (a + i)) n m j hj]
  exact forI_store_other c (fun i m => m (a + i)) j m (a + j) (fun i hi => by omega)

/-- Copy loop: nothing outside `c` changes. -/
theorem phase_copy_other (a c n : Nat) (m : Mem) (q : Nat) (hq : q < c ∨ c + n ≤ q) :
    phase_copy a c n m q = m q :=
  forI_store_other c (fun i m => m (a + i)) n m q (fun i hi => by omega)

/-- Scale loop: element `j` of `b` receives `scalar` times element `j` of `c`. -/
theorem phase_scale_at (scalar b c n : Nat) (m : Mem) (h : b + n ≤ c) (j : Nat) (hj : j < n) :
    phase_scale scalar b c n m (b + j) = scalar * m (c + j) % U64 := by
  unfold phase_scale
  rw [forI_store_at b (fun i m => scalar * m (c + i) % U64) n m j hj]
  show scalar * forI (fun i m => store m (b + i) (scalar * m (c + i) % U64)) j m (c + j) % U64 = _
  rw [forI_store_other b (fun i m => scalar * m (c + i) % U64) j m (c + j)
    (fun i hi => by omega)]

/-- Scale loop: nothing outside `b` changes. -/
theorem phase_scale_other (scalar b c n : Nat) (m : Mem) (q : Nat) (hq : q < b ∨ b + n ≤ q) :
    phase_scale scalar b c n m q = m q :=
  forI_store_other b (fun i m => scalar * m (c + i) % U64) n m q (fun i hi => by omega)

/-- Add loop: element `j` of `c` receives the sum of the elements `j` of `a` and `b`. -/
theorem phase_add_at (a b c n : Nat) (m : Mem) (h1 : a + n ≤ b) (h2 : b + n ≤ c) (j : Nat)
    (hj : j < n) :
    phase_add a b c n m (c + j) = (m (a + j) + m (b + j)) % U64 := by
  unfold phase_add
  rw [forI_store_at c (fun i m => (m (a + i) + m (b + i)) % U64) n m j hj]
  show (forI (fun i m => store m (c + i) ((m (a + i) + m (b + i)) % U64)) j m (a + j) +
    forI (fun i m => store m (c + i) ((m (a + i) + m (b + i)) % U64)) j m (b + j)) % U64 = _
  rw [forI_store_other c (fun i m => (m (a + i) + m (b + i)) % U64) j m (a + j)
      (fun i hi => by omega),
    forI_store_other c (fun i m => (m (a + i) + m (b + i)) % U64) j m (b + j)
      (fun i hi => by omega)]

/-- Add loop: nothing outside `c` changes. -/
theorem phase_add_other (a b c n : Nat) (m : Mem) (q : Nat) (hq : q < c ∨ c + n ≤ q) :
    phase_add a b c n m q = m q :=
  forI_store_other c (fun i m => (m (a + i) + m (b + i)) % U64) n m q (fun i hi => by omega)

/-- Triad loop: element `j` of `a` receives `b[j] + scalar * c[j]`. -/
theorem phase_triad_at (scalar a b c n : Nat) (m : Mem) (h1 : a + n ≤ b) (h2 : b + n ≤ c)
    (j : Nat) (hj : j < n) :
    phase_triad scalar a b c n m (a + j) = (m (b + j) + scalar * m (c + j) % U64) % U64 := by
  unfold phase_triad
  rw [forI_store_at a (fun i m => (m (b + i) + scalar * m (c + i) % U64) % U64) n m j hj]
  show (forI (fun i m => store m (a + i) ((m (b + i) + scalar * m (c + i) % U64) % U64)) j m
      (b + j) +
    scalar * forI (fun i m => store m (a + i) ((m (b + i) + scalar * m (c + i) % U64) % U64)) j m
      (c + j) % U64) % U64 = _
  rw [forI_store_other a (fun i m => (m (b + i) + scalar * m (c + i) % U64) % U64) j m (b + j)
      (fun i hi => by omega),
    forI_store_other a (fun i m => (m (b + i) + scalar * m (c + i) % U64) % U64) j m (c + j)
      (fun i hi => by omega)]

/-- Triad loop: nothing outside `a` changes. -/
theorem phase_triad_other (scalar a b c n : Nat) (m : Mem) (q : Nat) (hq : q < a ∨ a + n ≤ q) :
    phase_triad scalar a b c n m q = m q :=
  forI_store_other a (fun i m => (m (b + i) + scalar * m (c + i) % U64) % U64) n m q
    (fun i hi => by omega)

/-- One pass of the four loops, element by element, on three arrays that follow each other
without overlap: with `x` the incoming `a[i]`, the pass leaves `b[i] = 3x`, `c[i] = x + 3x` and
`a[i] = 3x + 3(x + 3x)`, every operation modulo `2 ^ 64`. -/
theorem kstream_pass_elem (a b c n : Nat) (m : Mem) (h1 : a + n ≤ b) (h2 : b + n ≤ c) (i : Nat)
    (hi : i < n) :
    kstream_pass a b c n m (a + i) =
      (3 * m (a + i) % U64 + 3 * ((m (a + i) + 3 * m (a + i) % U64) % U64) % U64) % U64 ∧
    kstream_pass a b c n m (b + i) = 3 * m (a + i) % U64 ∧
    kstream_pass a b c n m (c + i) = (m (a + i) + 3 * m (a + i) % U64) % U64 := by
  have hac : a + n ≤ c := by omega
  have c1 : phase_copy a c n m (c + i) = m (a + i) := phase_copy_at a c n m hac i hi
  have a1 : phase_copy a c n m (a + i) = m (a + i) :=
    phase_copy_other a c n m (a + i) (by omega)
  have b2 : phase_scale 3 b c n (phase_copy a c n m) (b + i) = 3 * m (a + i) % U64 := by
    rw [phase_scale_at 3 b c n _ h2 i hi, c1]
  have a2 : phase_scale 3 b c n (phase_copy a c n m) (a + i) = m (a + i) := by
    rw [phase_scale_other 3 b c n _ (a + i) (by omega), a1]
  have c3 : phase_add a b c n (phase_scale 3 b c n (phase_copy a c n m)) (c + i) =
      (m (a + i) + 3 * m (a + i) % U64) % U64 := by
    rw [phase_add_at a b c n _ h1 h2 i hi, a2, b2]
  have b3 : phase_add a b c n (phase_scale 3 b c n (phase_copy a c n m)) (b + i) =
      3 * m (a + i) % U64 := by
    rw [phase_add_other a b c n _ (b + i) (by omega), b2]
  unfold kstream_pass
  refine ⟨?_, ?_, ?_⟩
  · rw [phase_triad_at 3 a b c n _ h1 h2 i hi, b3, c3]
  · rw [phase_triad_other 3 a b c n _ (b + i) (by omega), b3]
  · rw [phase_triad_other 3 a b c n _ (c + i) (by omega), c3]

/-- One pass of the four loops changes nothing outside the three arrays. -/
theorem kstream_pass_other (a b c n : Nat) (m : Mem) (q : Nat)
    (hq : (q < a ∨ a + n ≤ q) ∧ (q < b ∨ b + n ≤ q) ∧ (q < c ∨ c + n ≤ q)) :
    kstream_pass a b c n m q = m q := by
  unfold kstream_pass
  rw [phase_triad_other 3 a b c n _ q hq.1, phase_add_other a b c n _ q hq.2.2,
    phase_scale_other 3 b c n _ q hq.2.1, phase_copy_other a c n _ q hq.2.2]

/-- The initialisation loop leaves `a[i] = 2`, `b[i] = 2`, `c[i] = 0` for every `i < n`, on
three arrays that follow each other without overlap. -/
theorem kstream_seed_elem (a b c n : Nat) (m : Mem) (h1 : a + n ≤ b) (h2 : b + n ≤ c) (i : Nat)
    (hi : i < n) :
    kstream_seed a b c n m (a + i) = 2 ∧ kstream_seed a b c n m (b + i) = 2 ∧
    kstream_seed a b c n m (c + i) = 0 := by
  unfold kstream_seed
  induction n with
  | zero => omega
  | succ k ih =>
    by_cases hik : i = k
    · subst hik
      have e1 : a + i ≠ c + i := by omega
      have e2 : a + i ≠ b + i := by omega
      have e3 : b + i ≠ c + i := by omega
      simp [forI, store, e1, e2, e3]
    · have hlt : i < k := by omega
      have e1 : a + i ≠ c + k := by omega
      have e2 : a + i ≠ b + k := by omega
      have e3 : a + i ≠ a + k := by omega
      have e4 : b + i ≠ c + k := by omega
      have e5 : b + i ≠ b + k := by omega
      have e6 : b + i ≠ a + k := by omega
      have e7 : c + i ≠ c + k := by omega
      have e8 : c + i ≠ b + k := by omega
      have e9 : c + i ≠ a + k := by omega
      have ih2 := ih (by omega) (by omega) hlt
      simp only [forI, store, e1, e2, e3, e4, e5, e6, e7, e8, e9, if_false]
      exact ih2

/-! ### The values after one pass -/

/-- Claim C2, as amended: after the seed `a = 2, b = 2, c = 0` and one pass of the four loops
(copy, scale, add, triad) with `scalar = 3`, every element has `c[i] = 8`, `b[i] = 6` and
`a[i] = 30`, on the arrays `a`, `b = a + n`, `c = b + n` of `kstream_run_single`. -/
theorem kstream_pass_after_seed (a n : Nat) (m : Mem) (i : Nat) (hi : i < n) :
    kstream_pass a (a + n) (a + n + n) n (kstream_seed a (a + n) (a + n + n) n m)
      (a + n + n + i) = 8 ∧
    kstream_pass a (a + n) (a + n + n) n (kstream_seed a (a + n) (a + n + n) n m)
      (a + n + i) = 6 ∧
    kstream_pass a (a + n) (a + n + n) n (kstream_seed a (a + n) (a + n + n) n m)
      (a + i) = 30 := by
  obtain ⟨ha, hb, hc⟩ := kstream_pass_elem a (a + n) (a + n + n) n
    (kstream_seed a (a + n) (a + n + n) n m) (Nat.le_refl _) (Nat.le_refl _) i hi
  obtain ⟨sa, _, _⟩ := kstream_seed_elem a (a + n) (a + n + n) n m (Nat.le_refl _)
    (Nat.le_refl _) i hi
  rw [ha, hb, hc, sa]
  refine ⟨?_, ?_, ?_⟩ <;> decide

/-- Witness for C2: one element, arrays at 0, 1 and 2, memory initially all zero. -/
theorem kstream_pass_after_seed_witness :
    (0 : Nat) < 1 ∧
    kstream_pass 0 (0 + 1) (0 + 1 + 1) 1 (kstream_seed 0 (0 + 1) (0 + 1 + 1) 1 (fun _ => 0))
      (0 + 1 + 1 + 0) = 8 ∧
    kstream_pass 0 (0 + 1) (0 + 1 + 1) 1 (kstream_seed 0 (0 + 1) (0 + 1 + 1) 1 (fun _ => 0))
      (0 + 1 + 0) = 6 ∧
    kstream_pass 0 (0 + 1) (0 + 1 + 1) 1 (kstream_seed 0 (0 + 1) (0 + 1 + 1) 1 (fun _ => 0))
      (0 + 0) = 30 :=
  ⟨by decide, kstream_pass_after_seed 0 1 (fun _ => 0) 0 (by decide)⟩

/-- Counterexample for C2 as stated: on one element, after the seed and one pass, it is not
the case that `c[0] = 2`, `b[0] = 6` and `a[0] = 24`; the pass leaves `c[0] = 8`, `a[0] = 30`. -/
theorem kstream_pass_after_seed_not_2_6_24 :
    ¬ (kstream_pass 0 1 2 1 (kstream_seed 0 1 2 1 (fun _ => 0)) 2 = 2 ∧
       kstream_pass 0 1 2 1 (kstream_seed 0 1 2 1 (fun _ => 0)) 1 = 6 ∧
       kstream_pass 0 1 2 1 (kstream_seed 0 1 2 1 (fun _ => 0)) 0 = 24) := by
  decide

/-! ### Best of ten -/

/-- A running minimum never exceeds its start value. -/
theorem forI_min_le_init (f : Nat → Nat) (B : Nat) (N : Nat) :
    forI (fun j acc => min acc (f j)) N B ≤ B := by
  induction N with
  | zero => exact Nat.le_refl _
  | succ k ih => exact Nat.le_trans (Nat.min_le_left _ _) ih

/-- A running minimum is at most every value it has seen. -/
theorem forI_min_le (f : Nat → Nat) (B : Nat) (N : Nat) (k : Nat) (hk : k < N) :
    forI (fun j acc => min acc (f j)) N B ≤ f k := by
  induction N with
  | zero => omega
  | succ N ih =>
    by_cases h : k = N
    · subst h
      exact Nat.min_le_right _ _
    · exact Nat.le_trans (Nat.min_le_left _ _) (ih (by omega))

/-- A running minimum is its start value or one of the values it has seen. -/
theorem forI_min_mem (f : Nat → Nat) (B : Nat) (N : Nat) :
    forI (fun j acc => min acc (f j)) N B = B ∨
      ∃ k, k < N ∧ forI (fun j acc => min acc (f j)) N B = f k := by
  induction N with
  | zero => exact Or.inl rfl
  | succ N ih =>
    show min (forI (fun j acc => min acc (f j)) N B) (f N) = B ∨
      ∃ k, k < N + 1 ∧ min (forI (fun j acc => min acc (f j)) N B) (f N) = f k
    rcases Nat.le_total (forI (fun j acc => min acc (f j)) N B) (f N) with h | h
    · rw [Nat.min_eq_left h]
      rcases ih with h0 | ⟨k, hk, he⟩
      · exact Or.inl h0
      · exact Or.inr ⟨k, by omega, he⟩
    · rw [Nat.min_eq_right h]
      exact Or.inr ⟨N, by omega, rfl⟩

/-- Started at `ULONG_MAX`, the minimum over at least one `u64` value is one of the values and a
lower bound of all of them. -/
theorem forI_min_spec (f : Nat → Nat) (N : Nat) (hN : 0 < N) (hf : ∀ k, f k < U64) :
    (∃ k, k < N ∧ forI (fun j acc => min acc (f j)) N ULONG_MAX = f k) ∧
    ∀ k, k < N → forI (fun j acc => min acc (f j)) N ULONG_MAX ≤ f k := by
  refine ⟨?_, fun k hk => forI_min_le f ULONG_MAX N k hk⟩
  rcases forI_min_mem f ULONG_MAX N with h | h
  · refine ⟨0, hN, ?_⟩
    have h1 := forI_min_le f ULONG_MAX N 0 hN
    have h2 := hf 0
    unfold ULONG_MAX at h h1 ⊢
    omega
  · exact h

/-- Every elapsed time is a `u64`. -/
theorem elapsed_lt (clock : Nat → Nat) (i : Nat) : elapsed clock i < U64 :=
  Nat.mod_lt _ (by unfold U64; positivity)

/-- Between two readings that do not decrease and fit in 64 bits, the elapsed time is the exact
difference. -/
theorem elapsed_of_le (clock : Nat → Nat) (i : Nat) (h : clock i ≤ clock (i + 1))
    (hfit : clock (i + 1) < U64) : elapsed clock i = clock (i + 1) - clock i := by
  unfold elapsed
  rw [Nat.mod_eq_of_lt hfit, Nat.mod_eq_of_lt (Nat.lt_of_le_of_lt h hfit)]
  have e : clock (i + 1) + U64 - clock i = (clock (i + 1) - clock i) + U64 := by omega
  rw [e, Nat.add_mod_right]
  exact Nat.mod_eq_of_lt (by omega)

/-- The `uint64_t` sum of the uncached kernel is the sum of the four elapsed times modulo
`2 ^ 64`. -/
theorem nocache_sum_eq_mod (clock : Nat → Nat) (r k : Nat) :
    nocache_sum clock r k =
      (elapsed clock (r + 8 * k) + elapsed clock (r + 8 * k + 2) +
        elapsed clock (r + 8 * k + 4) + elapsed clock (r + 8 * k + 6)) % U64 := by
  simp only [nocache_sum, Nat.zero_add]
  generalize elapsed clock (r + 8 * k) = d0
  generalize elapsed clock (r + 8 * k + 2) = d1
  generalize elapsed clock (r + 8 * k + 4) = d2
  generalize elapsed clock (r + 8 * k + 6) = d3
  simp only [U64, Nat.reducePow]
  omega

/-- Every per-iteration sum of the uncached kernel is a `u64`. -/
theorem nocache_sum_lt (clock : Nat → Nat) (r k : Nat) : nocache_sum clock r k < U64 :=
  Nat.mod_lt _ (by unfold U64; positivity)

/-- One iteration of the cached kernel: `best` is lowered to the elapsed time of the iteration,
the memory goes through one pass, two readings are taken around the four loops. -/
theorem cache_iteration_eq (clock : Nat → Nat) (a b c n : Nat) (bs : Nat × Machine) :
    cache_iteration clock a b c n bs =
      (min bs.1 (elapsed clock bs.2.reads),
       ⟨kstream_pass a b c n bs.2.mem, bs.2.reads + 2, bs.2.log ++ cache_events bs.2.reads 0⟩) := by
  simp [cache_iteration, ktime_get_raw_ns, run_copy, run_scale, run_add, run_triad, elapsed,
    kstream_pass, cache_events]

/-- The cached kernel after `k` iterations. -/
theorem cache_iterations_eq (clock : Nat → Nat) (a b c n : Nat) (B : Nat) (s : Machine) (k : Nat) :
    forI (fun _ bs => cache_iteration clock a b c n bs) k (B, s) =
      (forI (fun j acc => min acc (elapsed clock (s.reads + 2 * j))) k B,
       ⟨forI (fun _ m => kstream_pass a b c n m) k s.mem, s.reads + 2 * k,
        forI (fun j l => l ++ cache_events s.reads j) k s.log⟩) := by
  induction k with
  | zero => rfl
  | succ k ih =>
    show cache_iteration clock a b c n (forI (fun _ bs => cache_iteration clock a b c n bs) k (B, s))
      = _
    rw [ih, cache_iteration_eq]
    simp only [forI, cache_events]
    congr 2

/-- One iteration of the uncached kernel: `best` is lowered to the sum of the four elapsed
times, the memory goes through one pass, eight readings are taken. -/
theorem nocache_iteration_eq (clock : Nat → Nat) (a b c n : Nat) (bs : Nat × Machine) :
    nocache_iteration clock a b c n bs =
      (min bs.1 (nocache_sum clock bs.2.reads 0),
       ⟨kstream_pass a b c n bs.2.mem, bs.2.reads + 8,
        bs.2.log ++ nocache_events a b c n bs.2.reads 0⟩) := by
  simp [nocache_iteration, ktime_get_raw_ns, clflush_cache_range, run_copy, run_scale, run_add,
    run_triad, elapsed, nocache_sum, kstream_pass, nocache_events, Nat.add_assoc]

/-- The uncached kernel after `k` iterations. -/
theorem nocache_iterations_eq (clock : Nat → Nat) (a b c n : Nat) (B : Nat) (s : Machine)
    (k : Nat) :
    forI (fun _ bs => nocache_iteration clock a b c n bs) k (B, s) =
      (forI (fun j acc => min acc (nocache_sum clock s.reads j)) k B,
       ⟨forI (fun _ m => kstream_pass a b c n m) k s.mem, s.reads + 8 * k,
        forI (fun j l => l ++ nocache_events a b c n s.reads j) k s.log⟩) := by
  induction k with
  | zero => rfl
  | succ k ih =>
    show nocache_iteration clock a b c n
      (forI (fun _ bs => nocache_iteration clock a b c n bs) k (B, s)) = _
    rw [ih, nocache_iteration_eq]
    simp only [forI, nocache_events, nocache_sum, Nat.mul_zero, Nat.add_zero]
    congr 2

/-- Claim C4: `kstream_run_single_cache` returns the minimum of the 10 per-iteration elapsed
times `t1 - t0` (it is one of them and at most each of them), every iteration is one span of two
clock readings around all four loops, and the result does not change when one iteration is made
to take any time not below the minimum while another iteration attains the minimum. -/
theorem kstream_run_single_cache_returns_min (clock : Nat → Nat) (a b c n : Nat) (s : Machine) :
    (∃ k, k < 10 ∧
      (kstream_run_single_cache clock a b c n s).1 = elapsed clock (s.reads + 2 * k)) ∧
    (∀ k, k < 10 →
      (kstream_run_single_cache clock a b c n s).1 ≤ elapsed clock (s.reads + 2 * k)) ∧
    (kstream_run_single_cache clock a b c n s).2.log =
      forI (fun k l => l ++ cache_events s.reads k) 10 s.log ∧
    (∀ slow j, j < 10 →
      (∀ k, k < 10 → k ≠ j →
        elapsed slow (s.reads + 2 * k) = elapsed clock (s.reads + 2 * k)) →
      (∃ i, i < 10 ∧ i ≠ j ∧
        elapsed clock (s.reads + 2 * i) = (kstream_run_single_cache clock a b c n s).1) →
      (kstream_run_single_cache clock a b c n s).1 ≤ elapsed slow (s.reads + 2 * j) →
      (kstream_run_single_cache slow a b c n s).1 =
        (kstream_run_single_cache clock a b c n s).1) := by
  have key : ∀ clk : Nat → Nat,
      (∃ k, k < 10 ∧
        (kstream_run_single_cache clk a b c n s).1 = elapsed clk (s.reads + 2 * k)) ∧
      (∀ k, k < 10 →
        (kstream_run_single_cache clk a b c n s).1 ≤ elapsed clk (s.reads + 2 * k)) := by
    intro clk
    unfold kstream_run_single_cache
    rw [cache_iterations_eq]
    exact forI_min_spec (fun j => elapsed clk (s.reads + 2 * j)) 10 (by decide)
      (fun k => elapsed_lt clk _)
  refine ⟨(key clock).1, (key clock).2, ?_, ?_⟩
  · unfold kstream_run_single_cache
    rw [cache_iterations_eq]
  · intro slow j _ hsame hother hslow
    obtain ⟨i, hi, hij, hbest⟩ := hother
    obtain ⟨k, hk, hk2⟩ := (key slow).1
    have hle := (key slow).2 i hi
    rw [hsame i hi hij, hbest] at hle
    apply Nat.le_antisymm hle
    rw [hk2]
    by_cases hkj : k = j
    · rw [hkj]
      exact hslow
    · rw [hsame k hk hkj]
      exact (key clock).2 k hk

/-- Witness for C4: with a clock that advances by one unit per reading every iteration takes 1
unit; stalling iteration 3 by 1000 units leaves the returned value unchanged. -/
theorem kstream_run_single_cache_returns_min_witness :
    (kstream_run_single_cache stalled_clock 0 1 2 1 machine0).1 =
      (kstream_run_single_cache steady_clock 0 1 2 1 machine0).1 :=
  (kstream_run_single_cache_returns_min steady_clock 0 1 2 1 machine0).2.2.2 stalled_clock 3
    (by decide) (by decide) ⟨0, by decide, by decide, by decide⟩ (by decide)

/-- Claim C5: `kstream_run_single_nocache` returns the minimum over its 10 iterations of the
per-iteration sum of the four phase durations (it is one of the sums and at most each of them);
the sum is the `uint64_t` sum of the four `t1 - t0`, which is the exact sum of the four
differences when the 8 readings of the iteration do not decrease and fit in 64 bits; and every
loop is timed by its own pair of readings taken after the flushes of that loop. -/
theorem kstream_run_single_nocache_returns_min (clock : Nat → Nat) (a b c n : Nat)
    (s : Machine) :
    (∃ k, k < 10 ∧
      (kstream_run_single_nocache clock a b c n s).1 = nocache_sum clock s.reads k) ∧
    (∀ k, k < 10 →
      (kstream_run_single_nocache clock a b c n s).1 ≤ nocache_sum clock s.reads k) ∧
    (∀ k, nocache_sum clock s.reads k =
      (elapsed clock (s.reads + 8 * k) + elapsed clock (s.reads + 8 * k + 2) +
        elapsed clock (s.reads + 8 * k + 4) + elapsed clock (s.reads + 8 * k + 6)) % U64) ∧
    (∀ k, (∀ i, i < 7 → clock (s.reads + 8 * k + i) ≤ clock (s.reads + 8 * k + i + 1)) →
      clock (s.reads + 8 * k + 7) < U64 →
      nocache_sum clock s.reads k =
        (clock (s.reads + 8 * k + 1) - clock (s.reads + 8 * k)) +
        (clock (s.reads + 8 * k + 3) - clock (s.reads + 8 * k + 2)) +
        (clock (s.reads + 8 * k + 5) - clock (s.reads + 8 * k + 4)) +
        (clock (s.reads + 8 * k + 7) - clock (s.reads + 8 * k + 6))) ∧
    (kstream_run_single_nocache clock a b c n s).2.log =
      forI (fun k l => l ++ nocache_events a b c n s.reads k) 10 s.log := by
  refine ⟨?_, ?_, ?_, ?_, ?_⟩
  · unfold kstream_run_single_nocache
    rw [nocache_iterations_eq]
    exact (forI_min_spec (fun j => nocache_sum clock s.reads j) 10 (by decide)
      (fun k => nocache_sum_lt clock _ k)).1
  · unfold kstream_run_single_nocache
    rw [nocache_iterations_eq]
    exact (forI_min_spec (fun j => nocache_sum clock s.reads j) 10 (by decide)
      (fun k => nocache_sum_lt clock _ k)).2
  · intro k
    exact nocache_sum_eq_mod clock s.reads k
  · intro k hmono hfit
    generalize hr : s.reads + 8 * k = r at hmono hfit ⊢
    have h0 : clock r ≤ clock (r + 1) := hmono 0 (by omega)
    have h1 : clock (r + 1) ≤ clock (r + 2) := hmono 1 (by omega)
    have h2 : clock (r + 2) ≤ clock (r + 3) := hmono 2 (by omega)
    have h3 : clock (r + 3) ≤ clock (r + 4) := hmono 3 (by omega)
    have h4 : clock (r + 4) ≤ clock (r + 5) := hmono 4 (by omega)
    have h5 : clock (r + 5) ≤ clock (r + 6) := hmono 5 (by omega)
    have h6 : clock (r + 6) ≤ clock (r + 7) := hmono 6 (by omega)
    have f1 : clock (r + 1) < U64 := by omega
    have f3 : clock (r + 3) < U64 := by omega
    have f5 : clock (r + 5) < U64 := by omega
    have e0 : elapsed clock r = clock (r + 1) - clock r :=
      elapsed_of_le clock r h0 f1
    have e1 : elapsed clock (r + 2) = clock (r + 3) - clock (r + 2) :=
      elapsed_of_le clock (r + 2) h2 f3
    have e2 : elapsed clock (r + 4) = clock (r + 5) - clock (r + 4) :=
      elapsed_of_le clock (r + 4) h4 f5
    have e3 : elapsed clock (r + 6) = clock (r + 7) - clock (r + 6) :=
      elapsed_of_le clock (r + 6) h6 hfit
    rw [nocache_sum_eq_mod, hr, e0, e1, e2, e3]
    exact Nat.mod_eq_of_lt (by omega)
  · exact congrArg (fun x => x.2.log) (nocache_iterations_eq clock a b c n ULONG_MAX s 10)

/-- Witness for C5: with the clock that advances by one unit per reading, the readings of
iteration 0 do not decrease, and its sum is 1 + 1 + 1 + 1. -/
theorem kstream_run_single_nocache_returns_min_witness :
    nocache_sum steady_clock machine0.reads 0 =
      (steady_clock (machine0.reads + 8 * 0 + 1) - steady_clock (machine0.reads + 8 * 0)) +
      (steady_clock (machine0.reads + 8 * 0 + 3) - steady_clock (machine0.reads + 8 * 0 + 2)) +
      (steady_clock (machine0.reads + 8 * 0 + 5) - steady_clock (machine0.reads + 8 * 0 + 4)) +
      (steady_clock (machine0.reads + 8 * 0 + 7) - steady_clock (machine0.reads + 8 * 0 + 6)) :=
  (kstream_run_single_nocache_returns_min steady_clock 0 1 2 1 machine0).2.2.2.1 0
    (by decide) (by decide)

/-! ### The correctness check -/

/-- The validation loop passes exactly when every index it visits agrees with its left
neighbour in all three arrays. -/
theorem kstream_validate_loop_iff (m : Mem) (a b c : Nat) :
    ∀ count i, kstream_validate_loop m a b c count i = true ↔
      ∀ k, k < count → m (a + (i + k - 1)) = m (a + (i + k)) ∧
        m (b + (i + k - 1)) = m (b + (i + k)) ∧ m (c + (i + k - 1)) = m (c + (i + k)) := by
  intro count
  induction count with
  | zero => intro i; simp [kstream_validate_loop]
  | succ count ih =>
    intro i
    unfold kstream_validate_loop
    constructor
    · intro h k hk
      by_cases hc : (m (a + (i - 1)) != m (a + i) || m (b + (i - 1)) != m (b + i)
          || m (c + (i - 1)) != m (c + i)) = true
      · simp [hc] at h
      · rw [if_neg hc] at h
        simp only [Bool.or_eq_true, bne_iff_ne, ne_eq, not_or, Decidable.not_not] at hc
        cases k with
        | zero => simpa using ⟨hc.1.1, hc.1.2, hc.2⟩
        | succ k =>
          have := (ih (i + 1)).1 h k (by omega)
          rwa [show i + 1 + k = i + (k + 1) by omega] at this
    · intro h
      have h0 := h 0 (by omega)
      simp only [Nat.add_zero] at h0
      have hc : ¬ ((m (a + (i - 1)) != m (a + i) || m (b + (i - 1)) != m (b + i)
          || m (c + (i - 1)) != m (c + i)) = true) := by
        simp only [Bool.or_eq_true, bne_iff_ne, ne_eq, not_or, Decidable.not_not]
        exact ⟨⟨h0.1, h0.2.1⟩, h0.2.2⟩
      rw [if_neg hc]
      apply (ih (i + 1)).2
      intro k hk
      have := h (k + 1) (by omega)
      rwa [show i + (k + 1) = i + 1 + k by omega] at this

/-- Every element equals its left neighbour exactly when every element equals element 0. -/
theorem adjacent_eq_iff_all_eq_first (f : Nat → Nat) (n : Nat) :
    (∀ k, k < n - 1 → f (1 + k - 1) = f (1 + k)) ↔ ∀ i, i < n → f i = f 0 := by
  constructor
  · intro h i
    induction i with
    | zero => intro _; rfl
    | succ i ih =>
      intro hi
      have h1 := h i (by omega)
      rw [show 1 + i - 1 = i by omega, show 1 + i = i + 1 by omega] at h1
      rw [← h1]
      exact ih (by omega)
  · intro h k hk
    rw [show 1 + k - 1 = k by omega]
    rw [h k (by omega), h (1 + k) (by omega)]

/-- The validation of `kstream_run_single` (started at `i = 1`, `n - 1` iterations) passes
exactly when every element of each array equals element 0 of that array. -/
theorem kstream_validate_iff (m : Mem) (a b c n : Nat) :
    kstream_validate_loop m a b c (n - 1) 1 = true ↔
      ∀ i, i < n → m (a + i) = m a ∧ m (b + i) = m b ∧ m (c + i) = m c := by
  rw [kstream_validate_loop_iff]
  have ha := adjacent_eq_iff_all_eq_first (fun j => m (a + j)) n
  have hb := adjacent_eq_iff_all_eq_first (fun j => m (b + j)) n
  have hc := adjacent_eq_iff_all_eq_first (fun j => m (c + j)) n
  simp only [Nat.add_zero] at ha hb hc
  constructor
  · intro h i hi
    exact ⟨ha.1 (fun k hk => (h k hk).1) i hi, hb.1 (fun k hk => (h k hk).2.1) i hi,
      hc.1 (fun k hk => (h k hk).2.2) i hi⟩
  · intro h k hk
    exact ⟨ha.2 (fun i hi => (h i hi).1) k hk, hb.2 (fun i hi => (h i hi).2.1) k hk,
      hc.2 (fun i hi => (h i hi).2.2) k hk⟩

/-- The return value and the check: `kstream_run_single` returns `-EIO` exactly when, in the
memory left by the two runs, some element of `a`, `b` or `c` differs from element 0 of its
array, and the same holds of lines 173-192 on any memory whatever (adjacent comparison is
comparison with element 0); when no element differs and both durations are non-zero, so that
the divisions of the report line are defined, it returns 0. -/
theorem kstream_run_single_eio_iff (clock : Nat → Nat) (total_bytes : Nat) (virt : Nat → Nat)
    (pfn : Nat) (s : Machine) :
    ((kstream_run_single clock total_bytes virt pfn s).1.ret = some (U64 - 5) ↔
      ∃ i, i < array_size total_bytes ∧
        ((kstream_run_single clock total_bytes virt pfn s).2.mem (virt pfn + i) ≠
            (kstream_run_single clock total_bytes virt pfn s).2.mem (virt pfn) ∨
         (kstream_run_single clock total_bytes virt pfn s).2.mem
            (virt pfn + array_size total_bytes + i) ≠
            (kstream_run_single clock total_bytes virt pfn s).2.mem
              (virt pfn + array_size total_bytes) ∨
         (kstream_run_single clock total_bytes virt pfn s).2.mem
            (virt pfn + array_size total_bytes + array_size total_bytes + i) ≠
            (kstream_run_single clock total_bytes virt pfn s).2.mem
              (virt pfn + array_size total_bytes + array_size total_bytes))) ∧
    ((¬ ∃ i, i < array_size total_bytes ∧
        ((kstream_run_single clock total_bytes virt pfn s).2.mem (virt pfn + i) ≠
            (kstream_run_single clock total_bytes virt pfn s).2.mem (virt pfn) ∨
         (kstream_run_single clock total_bytes virt pfn s).2.mem
            (virt pfn + array_size total_bytes + i) ≠
            (kstream_run_single clock total_bytes virt pfn s).2.mem
              (virt pfn + array_size total_bytes) ∨
         (kstream_run_single clock total_bytes virt pfn s).2.mem
            (virt pfn + array_size total_bytes + array_size total_bytes + i) ≠
            (kstream_run_single clock total_bytes virt pfn s).2.mem
              (virt pfn + array_size total_bytes + array_size total_bytes))) →
      (kstream_run_single_runs clock total_bytes virt pfn s).1 ≠ 0 →
      (kstream_run_single_runs clock total_bytes virt pfn s).2.1 ≠ 0 →
      (kstream_run_single clock total_bytes virt pfn s).1.ret = some 0) ∧
    (∀ (m : Mem) (a b c n tc tnc : Nat),
      ((kstream_run_single_tail m a b c n tc tnc).ret = some (U64 - 5) ↔
        ∃ i, i < n ∧ (m (a + i) ≠ m a ∨ m (b + i) ≠ m b ∨ m (c + i) ≠ m c)) ∧
      ((¬ ∃ i, i < n ∧ (m (a + i) ≠ m a ∨ m (b + i) ≠ m b ∨ m (c + i) ≠ m c)) →
        tc ≠ 0 → tnc ≠ 0 → (kstream_run_single_tail m a b c n tc tnc).ret = some 0)) := by
  have tail : ∀ (m : Mem) (a b c n tc tnc : Nat),
      ((kstream_run_single_tail m a b c n tc tnc).ret = some (U64 - 5) ↔
        ∃ i, i < n ∧ (m (a + i) ≠ m a ∨ m (b + i) ≠ m b ∨ m (c + i) ≠ m c)) ∧
      ((¬ ∃ i, i < n ∧ (m (a + i) ≠ m a ∨ m (b + i) ≠ m b ∨ m (c + i) ≠ m c)) →
        tc ≠ 0 → tnc ≠ 0 → (kstream_run_single_tail m a b c n tc tnc).ret = some 0) := by
    intro m a b c n tc tnc
    have hv := kstream_validate_iff m a b c n
    have hex : (∃ i, i < n ∧ (m (a + i) ≠ m a ∨ m (b + i) ≠ m b ∨ m (c + i) ≠ m c)) ↔
        ¬ (kstream_validate_loop m a b c (n - 1) 1 = true) := by
      rw [hv]
      constructor
      · rintro ⟨i, hi, hne⟩ hall
        have := hall i hi
        tauto
      · intro hnot
        by_contra hno
        apply hnot
        intro i hi
        by_contra hbad
        exact hno ⟨i, hi, by tauto⟩
    rw [hex]
    unfold kstream_run_single_tail
    by_cases hpass : kstream_validate_loop m a b c (n - 1) 1 = true
    · simp only [hpass, Bool.not_true, Bool.false_eq_true, if_false, not_true_eq_false,
        iff_false, not_false_eq_true, true_implies]
      constructor
      · split
        · simp [Outcome.ret]
        · simp only [Outcome.ret, Option.some.injEq]
          unfold U64
          omega
      · intro h1 h2
        rw [if_neg (by tauto)]
        rfl
    · simp [hpass, Outcome.ret]
  have here := tail (kstream_run_single clock total_bytes virt pfn s).2.mem (virt pfn)
    (virt pfn + array_size total_bytes)
    (virt pfn + array_size total_bytes + array_size total_bytes) (array_size total_bytes)
    (kstream_run_single_runs clock total_bytes virt pfn s).1
    (kstream_run_single_runs clock total_bytes virt pfn s).2.1
  exact ⟨here.1, here.2, tail⟩

/-- The return value on two inputs: on three elements per array that all hold 7, with durations
1 and 4, the check passes and 0 is returned; and the experiment on a block of 24 bytes with the
clock that advances by one unit per reading returns 0. -/
theorem kstream_run_single_eio_iff_witness :
    (kstream_run_single_tail uniform_mem 0 3 6 3 1 4).ret = some 0 ∧
    (kstream_run_single steady_clock 24 (fun _ => 0) 0 machine0).1.ret = some 0 :=
  ⟨((kstream_run_single_eio_iff steady_clock 24 (fun _ => 0) 0 machine0).2.2
      uniform_mem 0 3 6 3 1 4).2 (by decide) (by decide) (by decide),
   (kstream_run_single_eio_iff steady_clock 24 (fun _ => 0) 0 machine0).2.1
      (by
        rintro ⟨i, hi, h⟩
        have h1 : array_size 24 = 1 := by decide
        have h0 : i = 0 := by omega
        subst h0
        simp at h)
      (by decide) (by decide)⟩

/-! ### The reported figures -/

/-- Claim C7, as amended: when the correctness check passes and both durations are non-zero,
the two figures of the report line are `(10 * 8 * n * 1000) / tnc` and
`(10 * 8 * n * 1000) / tc`, in this order, with `n` the per-array element count, `tc` and `tnc`
the best-of-10 durations of the cached and the uncached kernel; `total_bytes` is a C `int`. -/
theorem kstream_run_single_figures (clock : Nat → Nat) (total_bytes : Nat) (virt : Nat → Nat)
    (pfn : Nat) (s : Machine) (hint : total_bytes < 2 ^ 31)
    (hpass : (kstream_run_single clock total_bytes virt pfn s).1 ≠ Outcome.mismatch)
    (htc : (kstream_run_single_runs clock total_bytes virt pfn s).1 ≠ 0)
    (htnc : (kstream_run_single_runs clock total_bytes virt pfn s).2.1 ≠ 0) :
    (kstream_run_single clock total_bytes virt pfn s).1 =
      Outcome.report
        (10 * 8 * array_size total_bytes * 1000 /
          (kstream_run_single_runs clock total_bytes virt pfn s).2.1)
        (10 * 8 * array_size total_bytes * 1000 /
          (kstream_run_single_runs clock total_bytes virt pfn s).1) := by
  have hn : array_size total_bytes = total_bytes / 3 / 8 := by
    unfold array_size array_bytes ALIGN_DOWN
    omega
  have h1 : 10 * 8 * array_size total_bytes % U64 = 10 * 8 * array_size total_bytes := by
    apply Nat.mod_eq_of_lt
    unfold U64
    omega
  have h2 : 10 * 8 * array_size total_bytes * 1000 % U64 =
      10 * 8 * array_size total_bytes * 1000 := by
    apply Nat.mod_eq_of_lt
    unfold U64
    omega
  unfold kstream_run_single at hpass ⊢
  unfold kstream_run_single_tail at hpass ⊢
  simp only at hpass ⊢
  split
  · next hv => simp [hv] at hpass
  · rw [if_neg (not_or.mpr ⟨htnc, htc⟩), h1, h2]

/-- Witness for C7: a block of 24 bytes (one element per array) with the clock that advances by
one unit per reading; the durations are 1 and 4 and the figures 20000 and 80000. -/
theorem kstream_run_single_figures_witness :
    (kstream_run_single steady_clock 24 (fun _ => 0) 0 machine0).1 =
      Outcome.report
        (10 * 8 * array_size 24 * 1000 /
          (kstream_run_single_runs steady_clock 24 (fun _ => 0) 0 machine0).2.1)
        (10 * 8 * array_size 24 * 1000 /
          (kstream_run_single_runs steady_clock 24 (fun _ => 0) 0 machine0).1) :=
  kstream_run_single_figures steady_clock 24 (fun _ => 0) 0 machine0 (by decide) (by decide)
    (by decide) (by decide)

/-- Counterexample for C7 as stated: on a block of 24 bytes with the clock that advances by one
unit per reading the check passes, `n = 1`, `tc = 1`, `tnc = 4`, and the reported figures are
20000 and 80000, not `(10 * 8 * n) / tnc = 20` and `(10 * 8 * n) / tc = 80`. -/
theorem kstream_run_single_figures_not_bytes_per_duration :
    array_size 24 = 1 ∧
    (kstream_run_single_runs steady_clock 24 (fun _ => 0) 0 machine0).1 = 1 ∧
    (kstream_run_single_runs steady_clock 24 (fun _ => 0) 0 machine0).2.1 = 4 ∧
    (kstream_run_single steady_clock 24 (fun _ => 0) 0 machine0).1 =
      Outcome.report 20000 80000 ∧
    (kstream_run_single steady_clock 24 (fun _ => 0) 0 machine0).1 ≠
      Outcome.report
        (10 * 8 * array_size 24 /
          (kstream_run_single_runs steady_clock 24 (fun _ => 0) 0 machine0).2.1)
        (10 * 8 * array_size 24 /
          (kstream_run_single_runs steady_clock 24 (fun _ => 0) 0 machine0).1) := by
  refine ⟨by decide, by decide, by decide, by decide, by decide⟩

/-! ### The scan driver -/

/-- Running `j + n` turns is running `j` turns and then `n` more. -/
theorem kstream_fn_run_add (env : Env) (j n : Nat) (w : Worker) :
    kstream_fn_run env (j + n) w = kstream_fn_run env n (kstream_fn_run env j w) := by
  induction n with
  | zero => rfl
  | succ n ih =>
    show kstream_fn_step env (kstream_fn_run env (j + n) w) = _
    rw [ih]
    rfl

/-- Once the worker is at the head of the idle loop or has returned, it stays there, and all it
ever adds to the trace are `idle` events. -/
theorem kstream_fn_run_after_scan (env : Env) (w : Worker)
    (hw : w.phase = Phase.idle_wait ∨ w.phase = Phase.stopped) (n : Nat) :
    ((kstream_fn_run env n w).phase = Phase.idle_wait ∨
      (kstream_fn_run env n w).phase = Phase.stopped) ∧
    (kstream_fn_run env n w).pfn = w.pfn ∧
    ∃ idles, idles ≤ n ∧
      (kstream_fn_run env n w).trace = w.trace ++ List.replicate idles Event.idle := by
  induction n with
  | zero => exact ⟨hw, rfl, 0, Nat.le_refl _, by simp [kstream_fn_run]⟩
  | succ n ih =>
    obtain ⟨hph, hpfn, idles, hle, htr⟩ := ih
    show (((kstream_fn_step env (kstream_fn_run env n w)).phase = Phase.idle_wait ∨
      (kstream_fn_step env (kstream_fn_run env n w)).phase = Phase.stopped) ∧
      (kstream_fn_step env (kstream_fn_run env n w)).pfn = w.pfn ∧
      ∃ idles, idles ≤ n + 1 ∧ (kstream_fn_step env (kstream_fn_run env n w)).trace =
        w.trace ++ List.replicate idles Event.idle)
    rcases hph with hph | hph
    · by_cases hs : env.kthread_should_stop (kstream_fn_run env n w).polls = true
      · refine ⟨Or.inr ?_, ?_, idles, by omega, ?_⟩ <;>
          simp [kstream_fn_step, hph, hs, hpfn, htr]
      · refine ⟨Or.inl ?_, ?_, idles + 1, by omega, ?_⟩
        · simp [kstream_fn_step, hph, hs]
        · simp [kstream_fn_step, hph, hs, hpfn]
        · simp [kstream_fn_step, hph, hs, htr, List.replicate_add]
    · refine ⟨Or.inr ?_, ?_, idles, by omega, ?_⟩ <;>
        simp [kstream_fn_step, hph, hpfn, htr]

/-- Claim C9: if the stop signal is raised before the first address is processed, the worker
has returned after two turns (the `break` or the failed `for` condition, then the `while`
condition) and its trace stays empty: no validation, claim, experiment, release or idling; and
if the poll at the top of scan step `j` is the first to answer true, then from there on the
trace only grows by `idle` events: no later validation, claim, experiment or release. -/
theorem kstream_fn_stop (env : Env) :
    ((∀ k, env.kthread_should_stop k = true) →
      ∀ n, ((kstream_fn_run env n kstream_fn_init).trace = []) ∧
        (2 ≤ n → (kstream_fn_run env n kstream_fn_init).phase = Phase.stopped)) ∧
    (∀ j, (kstream_fn_run env j kstream_fn_init).phase = Phase.scanning →
      (kstream_fn_run env j kstream_fn_init).pfn < env.max_pfn →
      env.kthread_should_stop (kstream_fn_run env j kstream_fn_init).polls = true →
      ∀ n, ∃ idles, (kstream_fn_run env (j + n) kstream_fn_init).trace =
        (kstream_fn_run env j kstream_fn_init).trace ++ List.replicate idles Event.idle) := by
  constructor
  · intro hstop
    have h1 : (kstream_fn_run env 1 kstream_fn_init).phase = Phase.idle_wait ∧
        (kstream_fn_run env 1 kstream_fn_init).trace = [] := by
      by_cases hlt : 0 < env.max_pfn <;>
        simp [kstream_fn_run, kstream_fn_step, kstream_fn_init, hlt, hstop]
    have h2 : (kstream_fn_run env 2 kstream_fn_init).phase = Phase.stopped ∧
        (kstream_fn_run env 2 kstream_fn_init).trace = [] := by
      show (kstream_fn_step env (kstream_fn_run env 1 kstream_fn_init)).phase = Phase.stopped ∧
        (kstream_fn_step env (kstream_fn_run env 1 kstream_fn_init)).trace = []
      simp [kstream_fn_step, h1.1, h1.2, hstop]
    have hstay : ∀ m, (kstream_fn_run env (2 + m) kstream_fn_init).phase = Phase.stopped ∧
        (kstream_fn_run env (2 + m) kstream_fn_init).trace = [] := by
      intro m
      induction m with
      | zero => exact h2
      | succ m ih =>
        show (kstream_fn_step env (kstream_fn_run env (2 + m) kstream_fn_init)).phase =
          Phase.stopped ∧
          (kstream_fn_step env (kstream_fn_run env (2 + m) kstream_fn_init)).trace = []
        simp [kstream_fn_step, ih.1, ih.2]
    intro n
    rcases Nat.lt_or_ge n 2 with hn | hn
    · refine ⟨?_, fun h => by omega⟩
      have : n = 0 ∨ n = 1 := by omega
      rcases this with rfl | rfl
      · rfl
      · exact h1.2
    · obtain ⟨m, rfl⟩ : ∃ m, n = 2 + m := ⟨n - 2, by omega⟩
      exact ⟨(hstay m).2, fun _ => (hstay m).1⟩
  · intro j hph hlt hstop n
    cases n with
    | zero => exact ⟨0, by simp⟩
    | succ n =>
      have hbreak : (kstream_fn_run env (j + 1) kstream_fn_init).phase = Phase.idle_wait ∧
          (kstream_fn_run env (j + 1) kstream_fn_init).trace =
            (kstream_fn_run env j kstream_fn_init).trace := by
        show (kstream_fn_step env (kstream_fn_run env j kstream_fn_init)).phase =
            Phase.idle_wait ∧
          (kstream_fn_step env (kstream_fn_run env j kstream_fn_init)).trace =
            (kstream_fn_run env j kstream_fn_init).trace
        simp [kstream_fn_step, hph, hlt, hstop]
      obtain ⟨_, _, idles, _, htr⟩ := kstream_fn_run_after_scan env
        (kstream_fn_run env (j + 1) kstream_fn_init) (Or.inl hbreak.1) n
      refine ⟨idles, ?_⟩
      rw [show j + (n + 1) = (j + 1) + n by omega, kstream_fn_run_add, htr, hbreak.2]

/-- Witness for C9: with the signal raised from the start the worker has returned after two
turns with an empty trace; with the signal first seen at the top of the step for address 4, the
only events ever are those of the block at address 0. -/
theorem kstream_fn_stop_witness :
    ((kstream_fn_run env_stopped_at_start 2 kstream_fn_init).trace = [] ∧
      (kstream_fn_run env_stopped_at_start 2 kstream_fn_init).phase = Phase.stopped) ∧
    ∃ idles, (kstream_fn_run env_stopped_at_second (1 + 5) kstream_fn_init).trace =
      (kstream_fn_run env_stopped_at_second 1 kstream_fn_init).trace ++
        List.replicate idles Event.idle :=
  ⟨⟨((kstream_fn_stop env_stopped_at_start).1 (fun _ => rfl) 2).1,
    ((kstream_fn_stop env_stopped_at_start).1 (fun _ => rfl) 2).2 (by decide)⟩,
   (kstream_fn_stop env_stopped_at_second).2 1 (by decide) (by decide) (by decide) 5⟩

/-- On an aligned start address the validator returns a verdict (the `BUG_ON` does not fire). -/
theorem kstream_block_valid_aligned (mm : MemMap) (G start : Nat) (h : start % G = 0) :
    ∃ v, kstream_block_valid mm G start = some v := by
  unfold kstream_block_valid
  have ha : IS_ALIGNED start G = true := by simp [IS_ALIGNED, h]
  simp only [ha, Bool.not_true, Bool.false_eq_true, if_false]
  cases mm.pfn_to_online_page start with
  | none => exact ⟨false, rfl⟩
  | some page => exact ⟨_, rfl⟩

/-- One scan step at an aligned address below the maximum, without stop signal, when the claim
fails: the worker stays in the scan loop, moves to the next address, and adds the validation
of the address and at most a claim event; it neither experiments nor releases. -/
theorem kstream_fn_step_claim_fails (env : Env) (w : Worker)
    (hph : w.phase = Phase.scanning) (hlt : w.pfn < env.max_pfn)
    (hstop : env.kthread_should_stop w.polls = false) (hal : w.pfn % env.G = 0)
    (hfail : ∀ t p, env.alloc_contig_range t p ≠ 0) :
    (kstream_fn_step env w).phase = Phase.scanning ∧
    (kstream_fn_step env w).pfn = (w.pfn + env.G) % U64 ∧
    (kstream_fn_step env w).polls = w.polls + 1 ∧
    ∃ evs, (kstream_fn_step env w).trace = w.trace ++ evs ∧
      evs.filterMap Event.validated = [w.pfn] ∧
      ∀ e, e ∈ evs → (∃ p v, e = Event.validate p v) ∨ (∃ p q r, e = Event.claim p q r) := by
  obtain ⟨v, hv⟩ := kstream_block_valid_aligned env.mm env.G w.pfn hal
  cases v with
  | false =>
    refine ⟨?_, ?_, ?_, [Event.validate w.pfn false], ?_, rfl, ?_⟩
    · simp [kstream_fn_step, hph, hlt, hstop, hv, next_pfn]
    · simp [kstream_fn_step, hph, hlt, hstop, hv, next_pfn]
    · simp [kstream_fn_step, hph, hlt, hstop, hv, next_pfn]
    · simp [kstream_fn_step, hph, hlt, hstop, hv, next_pfn]
    · intro e he
      simp only [List.mem_singleton] at he
      exact Or.inl ⟨_, _, he⟩
  | true =>
    have hf := hfail (w.polls + 1) w.pfn
    refine ⟨?_, ?_, ?_, [Event.validate w.pfn true,
      Event.claim w.pfn ((w.pfn + env.G) % U64) (env.alloc_contig_range (w.polls + 1) w.pfn)],
      ?_, rfl, ?_⟩
    · simp [kstream_fn_step, hph, hlt, hstop, hv, next_pfn, hf]
    · simp [kstream_fn_step, hph, hlt, hstop, hv, next_pfn, hf]
    · simp [kstream_fn_step, hph, hlt, hstop, hv, next_pfn, hf]
    · simp [kstream_fn_step, hph, hlt, hstop, hv, next_pfn, hf]
    · intro e he
      simp only [List.mem_cons, List.mem_singleton, List.not_mem_nil, or_false] at he
      rcases he with he | he
      · exact Or.inl ⟨_, _, he⟩
      · exact Or.inr ⟨_, _, _, he⟩

/-- The number of candidate addresses below the maximum: `k` is below
`(max_pfn + G - 1) / G` exactly when `k * G` is below `max_pfn`. -/
theorem candidate_count (M G : Nat) (hG : 0 < G) (k : Nat) :
    k < (M + G - 1) / G ↔ k * G < M := by
  rw [Nat.lt_iff_add_one_le, Nat.le_div_iff_mul_le hG, Nat.add_mul]
  omega

/-- The scan when every claim fails and no stop signal is raised, after `k` steps with `k` at
most the number of candidates: the worker is in the scan loop at address `k * G`, has validated
exactly the addresses `0, G, ..., (k - 1) * G` in this order, and its trace holds validation and
claim events only. -/
theorem kstream_fn_run_claims_fail (env : Env) (hG : 0 < env.G)
    (hfit : env.max_pfn + env.G ≤ U64)
    (hfail : ∀ t p, env.alloc_contig_range t p ≠ 0)
    (hstop : ∀ k, env.kthread_should_stop k = false) :
    ∀ k, k ≤ (env.max_pfn + env.G - 1) / env.G →
      (kstream_fn_run env k kstream_fn_init).phase = Phase.scanning ∧
      (kstream_fn_run env k kstream_fn_init).pfn = k * env.G ∧
      (kstream_fn_run env k kstream_fn_init).trace.filterMap Event.validated =
        (List.range k).map (fun j => j * env.G) ∧
      ∀ e, e ∈ (kstream_fn_run env k kstream_fn_init).trace →
        (∃ p v, e = Event.validate p v) ∨ (∃ p q r, e = Event.claim p q r) := by
  intro k
  induction k with
  | zero =>
    intro _
    refine ⟨rfl, by simp [kstream_fn_run, kstream_fn_init], rfl, ?_⟩
    intro e he
    simp [kstream_fn_run, kstream_fn_init] at he
  | succ k ih =>
    intro hk
    obtain ⟨hph, hpfn, hval, hev⟩ := ih (by omega)
    have hlt : k * env.G < env.max_pfn := (candidate_count env.max_pfn env.G hG k).1 (by omega)
    have hal : (kstream_fn_run env k kstream_fn_init).pfn % env.G = 0 := by
      rw [hpfn]
      exact Nat.mul_mod_left k env.G
    obtain ⟨sph, spfn, _, evs, str, sval, sev⟩ := kstream_fn_step_claim_fails env
      (kstream_fn_run env k kstream_fn_init) hph (by rw [hpfn]; exact hlt) (hstop _) hal hfail
    show (kstream_fn_step env (kstream_fn_run env k kstream_fn_init)).phase = Phase.scanning ∧
      (kstream_fn_step env (kstream_fn_run env k kstream_fn_init)).pfn = (k + 1) * env.G ∧
      (kstream_fn_step env (kstream_fn_run env k kstream_fn_init)).trace.filterMap
        Event.validated = (List.range (k + 1)).map (fun j => j * env.G) ∧
      ∀ e, e ∈ (kstream_fn_step env (kstream_fn_run env k kstream_fn_init)).trace →
        (∃ p v, e = Event.validate p v) ∨ (∃ p q r, e = Event.claim p q r)
    refine ⟨sph, ?_, ?_, ?_⟩
    · rw [spfn, hpfn, Nat.add_mul, Nat.one_mul]
      exact Nat.mod_eq_of_lt (by omega)
    · rw [str, List.filterMap_append, hval, sval, hpfn, List.range_succ, List.map_append]
      rfl
    · intro e he
      rw [str, List.mem_append] at he
      rcases he with he | he
      · exact hev e he
      · exact sev e he

/-- While no stop signal is raised the idle loop goes on: after `n` more turns the worker is
still at the head of the idle loop and has added `n` `idle` events. -/
theorem kstream_fn_run_idle_no_stop (env : Env) (w : Worker) (hw : w.phase = Phase.idle_wait)
    (hstop : ∀ k, env.kthread_should_stop k = false) (n : Nat) :
    (kstream_fn_run env n w).phase = Phase.idle_wait ∧
    (kstream_fn_run env n w).trace = w.trace ++ List.replicate n Event.idle := by
  induction n with
  | zero => exact ⟨hw, by simp [kstream_fn_run]⟩
  | succ n ih =>
    show (kstream_fn_step env (kstream_fn_run env n w)).phase = Phase.idle_wait ∧
      (kstream_fn_step env (kstream_fn_run env n w)).trace =
        w.trace ++ List.replicate (n + 1) Event.idle
    constructor
    · simp [kstream_fn_step, ih.1, hstop]
    · simp [kstream_fn_step, ih.1, ih.2, hstop, List.replicate_add]

/-- Idle events are not validations. -/
theorem filterMap_validated_idle (n : Nat) :
    (List.replicate n Event.idle).filterMap Event.validated = [] := by
  induction n with
  | zero => rfl
  | succ n ih => simp [List.replicate_succ, List.filterMap_cons, Event.validated]

/-- Claim C10, as amended: when every claim attempt fails and no stop signal is raised, for a
granularity `G > 0` and a maximum address with `max_pfn + G ≤ 2 ^ 64`, the scan visits exactly
the candidate addresses `k * G` below the maximum, in increasing order, and is then at the head
of the idle loop for good; at no time has it hit the `BUG_ON`, returned, run an experiment or
released a block. -/
theorem kstream_fn_all_claims_fail (env : Env) (hG : 0 < env.G)
    (hfit : env.max_pfn + env.G ≤ U64)
    (hfail : ∀ t p, env.alloc_contig_range t p ≠ 0)
    (hstop : ∀ k, env.kthread_should_stop k = false) :
    (∀ k, k < (env.max_pfn + env.G - 1) / env.G ↔ k * env.G < env.max_pfn) ∧
    (∀ n, (env.max_pfn + env.G - 1) / env.G < n →
      (kstream_fn_run env n kstream_fn_init).phase = Phase.idle_wait ∧
      (kstream_fn_run env n kstream_fn_init).trace.filterMap Event.validated =
        (List.range ((env.max_pfn + env.G - 1) / env.G)).map (fun k => k * env.G)) ∧
    (∀ n, (kstream_fn_run env n kstream_fn_init).phase ≠ Phase.bug ∧
      (kstream_fn_run env n kstream_fn_init).phase ≠ Phase.stopped ∧
      ∀ e, e ∈ (kstream_fn_run env n kstream_fn_init).trace →
        (∀ p r, e ≠ Event.experiment p r) ∧ (∀ p q, e ≠ Event.release p q)) := by
  have hscan := kstream_fn_run_claims_fail env hG hfit hfail hstop
  obtain ⟨hph, hpfn, hval, hev⟩ := hscan ((env.max_pfn + env.G - 1) / env.G) (Nat.le_refl _)
  have hge : ¬ ((env.max_pfn + env.G - 1) / env.G * env.G < env.max_pfn) := fun h =>
    Nat.lt_irrefl _ ((candidate_count env.max_pfn env.G hG _).2 h)
  have hexit : (kstream_fn_run env ((env.max_pfn + env.G - 1) / env.G + 1)
        kstream_fn_init).phase = Phase.idle_wait ∧
      (kstream_fn_run env ((env.max_pfn + env.G - 1) / env.G + 1) kstream_fn_init).trace =
        (kstream_fn_run env ((env.max_pfn + env.G - 1) / env.G) kstream_fn_init).trace := by
    show (kstream_fn_step env (kstream_fn_run env ((env.max_pfn + env.G - 1) / env.G)
        kstream_fn_init)).phase = Phase.idle_wait ∧
      (kstream_fn_step env (kstream_fn_run env ((env.max_pfn + env.G - 1) / env.G)
        kstream_fn_init)).trace =
        (kstream_fn_run env ((env.max_pfn + env.G - 1) / env.G) kstream_fn_init).trace
    rw [← hpfn] at hge
    simp [kstream_fn_step, hph, hge]
  have hafter : ∀ m, (kstream_fn_run env ((env.max_pfn + env.G - 1) / env.G + 1 + m)
        kstream_fn_init).phase = Phase.idle_wait ∧
      (kstream_fn_run env ((env.max_pfn + env.G - 1) / env.G + 1 + m) kstream_fn_init).trace =
        (kstream_fn_run env ((env.max_pfn + env.G - 1) / env.G) kstream_fn_init).trace ++
          List.replicate m Event.idle := by
    intro m
    rw [kstream_fn_run_add]
    have := kstream_fn_run_idle_no_stop env _ hexit.1 hstop m
    rw [hexit.2] at this
    exact this
  refine ⟨candidate_count env.max_pfn env.G hG, ?_, ?_⟩
  · intro n hn
    obtain ⟨m, rfl⟩ : ∃ m, n = (env.max_pfn + env.G - 1) / env.G + 1 + m :=
      ⟨n - ((env.max_pfn + env.G - 1) / env.G + 1), by omega⟩
    refine ⟨(hafter m).1, ?_⟩
    rw [(hafter m).2, List.filterMap_append, filterMap_validated_idle, List.append_nil, hval]
  · intro n
    rcases Nat.lt_or_ge ((env.max_pfn + env.G - 1) / env.G) n with hn | hn
    · obtain ⟨m, rfl⟩ : ∃ m, n = (env.max_pfn + env.G - 1) / env.G + 1 + m :=
        ⟨n - ((env.max_pfn + env.G - 1) / env.G + 1), by omega⟩
      rw [(hafter m).1, (hafter m).2]
      refine ⟨by decide, by decide, ?_⟩
      intro e he
      rw [List.mem_append] at he
      rcases he with he | he
      · rcases hev e he with ⟨p, v, rfl⟩ | ⟨p, q, r, rfl⟩ <;>
          exact ⟨fun _ _ h => (by cases h), fun _ _ h => (by cases h)⟩
      · rw [List.eq_of_mem_replicate he]
        exact ⟨fun _ _ h => (by cases h), fun _ _ h => (by cases h)⟩
    · obtain ⟨hph2, _, _, hev2⟩ := hscan n hn
      rw [hph2]
      refine ⟨by decide, by decide, ?_⟩
      intro e he
      rcases hev2 e he with ⟨p, v, rfl⟩ | ⟨p, q, r, rfl⟩ <;>
        exact ⟨fun _ _ h => (by cases h), fun _ _ h => (by cases h)⟩

/-- Witness for C10: a scan over 10 units in blocks of 4 in which every claim fails visits the
addresses 0, 4 and 8 and idles from turn 4 on. -/
theorem kstream_fn_all_claims_fail_witness :
    (kstream_fn_run env_claims_fail 6 kstream_fn_init).phase = Phase.idle_wait ∧
    (kstream_fn_run env_claims_fail 6 kstream_fn_init).trace.filterMap Event.validated =
      (List.range ((env_claims_fail.max_pfn + env_claims_fail.G - 1) / env_claims_fail.G)).map
        (fun k => k * env_claims_fail.G) :=
  (kstream_fn_all_claims_fail env_claims_fail (by decide) (by decide)
    (fun _ _ => (by decide : (-16 : Int) ≠ 0)) (fun _ => rfl)).2.1 6 (by decide)

/-! ### The data computed by the two kernels -/

/-- The memory left by the cached kernel is ten passes over the initial memory. -/
theorem kstream_run_single_cache_mem (clock : Nat → Nat) (a b c n : Nat) (s : Machine) :
    (kstream_run_single_cache clock a b c n s).2.mem =
      forI (fun _ m => kstream_pass a b c n m) 10 s.mem :=
  congrArg (fun x => x.2.mem) (cache_iterations_eq clock a b c n ULONG_MAX s 10)

/-- The memory left by the uncached kernel is ten passes over the initial memory. -/
theorem kstream_run_single_nocache_mem (clock : Nat → Nat) (a b c n : Nat) (s : Machine) :
    (kstream_run_single_nocache clock a b c n s).2.mem =
      forI (fun _ m => kstream_pass a b c n m) 10 s.mem :=
  congrArg (fun x => x.2.mem) (nocache_iterations_eq clock a b c n ULONG_MAX s 10)

/-- The cached kernel takes 20 clock readings. -/
theorem kstream_run_single_cache_reads (clock : Nat → Nat) (a b c n : Nat) (s : Machine) :
    (kstream_run_single_cache clock a b c n s).2.reads = s.reads + 20 :=
  congrArg (fun x => x.2.reads) (cache_iterations_eq clock a b c n ULONG_MAX s 10)

/-- Claim C14: the final memory of `kstream_run_single_cache` is the same for every two clocks,
every two counts of earlier readings and every two logs: it is ten passes of the four loops over
the initial memory, a function of the initial memory, the pointers and `n` alone. -/
theorem kstream_run_single_cache_deterministic (clock1 clock2 : Nat → Nat) (a b c n : Nat)
    (m : Mem) (reads1 reads2 : Nat) (log1 log2 : List KEvent) :
    (kstream_run_single_cache clock1 a b c n ⟨m, reads1, log1⟩).2.mem =
      (kstream_run_single_cache clock2 a b c n ⟨m, reads2, log2⟩).2.mem ∧
    (kstream_run_single_cache clock1 a b c n ⟨m, reads1, log1⟩).2.mem =
      forI (fun _ mem => kstream_pass a b c n mem) 10 m := by
  rw [kstream_run_single_cache_mem, kstream_run_single_cache_mem]
  exact ⟨rfl, rfl⟩

/-- Claim C17: from the same initial memory, `kstream_run_single_nocache` leaves exactly the
memory that `kstream_run_single_cache` leaves, for every `n`, every pointers and every two
clocks: the flushes and the timing brackets do not touch the data. -/
theorem kstream_run_single_nocache_same_data (clock1 clock2 : Nat → Nat) (a b c n : Nat)
    (m : Mem) (reads1 reads2 : Nat) (log1 log2 : List KEvent) :
    (kstream_run_single_nocache clock1 a b c n ⟨m, reads1, log1⟩).2.mem =
      (kstream_run_single_cache clock2 a b c n ⟨m, reads2, log2⟩).2.mem := by
  rw [kstream_run_single_nocache_mem, kstream_run_single_cache_mem]

/-! ### The arithmetic of a pass -/

/-- One pass in closed form: on arrays that follow each other without overlap, element `i`
leaves with `a[i] = 15x`, `b[i] = 3x`, `c[i] = 4x` modulo `2 ^ 64`, where `x` is the incoming
`a[i]`. -/
theorem kstream_pass_closed (a b c n : Nat) (m : Mem) (h1 : a + n ≤ b) (h2 : b + n ≤ c)
    (i : Nat) (hi : i < n) :
    kstream_pass a b c n m (a + i) = 15 * m (a + i) % U64 ∧
    kstream_pass a b c n m (b + i) = 3 * m (a + i) % U64 ∧
    kstream_pass a b c n m (c + i) = 4 * m (a + i) % U64 := by
  obtain ⟨ha, hb, hc⟩ := kstream_pass_elem a b c n m h1 h2 i hi
  rw [ha, hb, hc]
  generalize m (a + i) = x
  simp only [U64, Nat.reducePow]
  refine ⟨?_, trivial, ?_⟩ <;> omega

/-- After `k + 1` passes element `i` of `a` holds `15 ^ (k + 1)` times its initial value. -/
theorem kstream_passes_a (a b c n : Nat) (m : Mem) (h1 : a + n ≤ b) (h2 : b + n ≤ c)
    (i : Nat) (hi : i < n) (k : Nat) :
    forI (fun _ mem => kstream_pass a b c n mem) (k + 1) m (a + i) =
      15 ^ (k + 1) * m (a + i) % U64 := by
  induction k with
  | zero =>
    show kstream_pass a b c n m (a + i) = 15 ^ (0 + 1) * m (a + i) % U64
    rw [(kstream_pass_closed a b c n m h1 h2 i hi).1]
    simp
  | succ k ih =>
    show kstream_pass a b c n (forI (fun _ mem => kstream_pass a b c n mem) (k + 1) m) (a + i) =
      15 ^ (k + 1 + 1) * m (a + i) % U64
    rw [(kstream_pass_closed a b c n _ h1 h2 i hi).1, ih, Nat.mul_mod_mod, ← Nat.mul_assoc,
      Nat.pow_succ 15 (k + 1), Nat.mul_comm (15 ^ (k + 1)) 15]

/-- After `k + 2` passes the elements `i` of `b` and `c` hold 3 and 4 times what `a[i]` held
after `k + 1` passes. -/
theorem kstream_passes_bc (a b c n : Nat) (m : Mem) (h1 : a + n ≤ b) (h2 : b + n ≤ c)
    (i : Nat) (hi : i < n) (k : Nat) :
    forI (fun _ mem => kstream_pass a b c n mem) (k + 2) m (b + i) =
      3 * (15 ^ (k + 1) * m (a + i) % U64) % U64 ∧
    forI (fun _ mem => kstream_pass a b c n mem) (k + 2) m (c + i) =
      4 * (15 ^ (k + 1) * m (a + i) % U64) % U64 := by
  have hb := (kstream_pass_closed a b c n
    (forI (fun _ mem => kstream_pass a b c n mem) (k + 1) m) h1 h2 i hi).2.1
  have hc := (kstream_pass_closed a b c n
    (forI (fun _ mem => kstream_pass a b c n mem) (k + 1) m) h1 h2 i hi).2.2
  rw [kstream_passes_a a b c n m h1 h2 i hi k] at hb hc
  exact ⟨hb, hc⟩

/-- The memory left by the two runs of `kstream_run_single`: the seed followed by twenty
passes, on arrays `a = virt pfn`, `b = a + n`, `c = b + n`. -/
theorem kstream_run_single_runs_mem (clock : Nat → Nat) (total_bytes : Nat) (virt : Nat → Nat)
    (pfn : Nat) (s : Machine) :
    (kstream_run_single_runs clock total_bytes virt pfn s).2.2.mem =
      forI (fun _ mem => kstream_pass (virt pfn) (virt pfn + array_size total_bytes)
          (virt pfn + array_size total_bytes + array_size total_bytes)
          (array_size total_bytes) mem) 10
        (forI (fun _ mem => kstream_pass (virt pfn) (virt pfn + array_size total_bytes)
          (virt pfn + array_size total_bytes + array_size total_bytes)
          (array_size total_bytes) mem) 10
          (kstream_seed (virt pfn) (virt pfn + array_size total_bytes)
            (virt pfn + array_size total_bytes + array_size total_bytes)
            (array_size total_bytes) s.mem)) := by
  unfold kstream_run_single_runs
  simp only [array_ptrs]
  rw [kstream_run_single_nocache_mem, kstream_run_single_cache_mem]

/-- The values left by the two runs of `kstream_run_single` in every element. -/
theorem kstream_run_single_runs_elem (clock : Nat → Nat) (total_bytes : Nat) (virt : Nat → Nat)
    (pfn : Nat) (s : Machine) (i : Nat) (hi : i < array_size total_bytes) :
    (kstream_run_single_runs clock total_bytes virt pfn s).2.2.mem (virt pfn + i) =
      2 * 15 ^ 20 % U64 ∧
    (kstream_run_single_runs clock total_bytes virt pfn s).2.2.mem
      (virt pfn + array_size total_bytes + i) = 6 * 15 ^ 19 % U64 ∧
    (kstream_run_single_runs clock total_bytes virt pfn s).2.2.mem
      (virt pfn + array_size total_bytes + array_size total_bytes + i) = 8 * 15 ^ 19 % U64 := by
  rw [kstream_run_single_runs_mem]
  have h1 : virt pfn + array_size total_bytes ≤ virt pfn + array_size total_bytes :=
    Nat.le_refl _
  have h2 : virt pfn + array_size total_bytes + array_size total_bytes ≤
      virt pfn + array_size total_bytes + array_size total_bytes := Nat.le_refl _
  have hseed := (kstream_seed_elem (virt pfn) (virt pfn + array_size total_bytes)
    (virt pfn + array_size total_bytes + array_size total_bytes) (array_size total_bytes)
    s.mem h1 h2 i hi).1
  have hfirst := kstream_passes_a (virt pfn) (virt pfn + array_size total_bytes)
    (virt pfn + array_size total_bytes + array_size total_bytes) (array_size total_bytes)
    (kstream_seed (virt pfn) (virt pfn + array_size total_bytes)
      (virt pfn + array_size total_bytes + array_size total_bytes) (array_size total_bytes)
      s.mem) h1 h2 i hi 9
  rw [hseed] at hfirst
  refine ⟨?_, ?_, ?_⟩
  · rw [kstream_passes_a _ _ _ _ _ h1 h2 i hi 9, hfirst]
    decide
  · rw [(kstream_passes_bc _ _ _ _ _ h1 h2 i hi 8).1, hfirst]
    decide
  · rw [(kstream_passes_bc _ _ _ _ _ h1 h2 i hi 8).2, hfirst]
    decide

/-- Claim C19: one pass of the four loops maps the triple `(a[i], b[i], c[i])` of every element
to `(15 a[i], 3 a[i], 4 a[i])` modulo `2 ^ 64`, whatever `b[i]` and `c[i]` were (on arrays that
follow each other without overlap, as those of `kstream_run_single` do); and after the seed and
the 20 passes of `kstream_run_single` every element holds `a = 2 * 15 ^ 20`, `b = 6 * 15 ^ 19`
and `c = 8 * 15 ^ 19` modulo `2 ^ 64`. -/
theorem kstream_pass_times_fifteen (clock : Nat → Nat) (total_bytes : Nat) (virt : Nat → Nat)
    (pfn : Nat) (s : Machine) :
    (∀ (a b c n : Nat) (m : Mem) (i : Nat), a + n ≤ b → b + n ≤ c → i < n →
      kstream_pass a b c n m (a + i) = 15 * m (a + i) % U64 ∧
      kstream_pass a b c n m (b + i) = 3 * m (a + i) % U64 ∧
      kstream_pass a b c n m (c + i) = 4 * m (a + i) % U64) ∧
    (∀ i, i < array_size total_bytes →
      (kstream_run_single_runs clock total_bytes virt pfn s).2.2.mem (virt pfn + i) =
        2 * 15 ^ 20 % U64 ∧
      (kstream_run_single_runs clock total_bytes virt pfn s).2.2.mem
        (virt pfn + array_size total_bytes + i) = 6 * 15 ^ 19 % U64 ∧
      (kstream_run_single_runs clock total_bytes virt pfn s).2.2.mem
        (virt pfn + array_size total_bytes + array_size total_bytes + i) =
        8 * 15 ^ 19 % U64) :=
  ⟨fun a b c n m i h1 h2 hi => kstream_pass_closed a b c n m h1 h2 i hi,
   fun i hi => kstream_run_single_runs_elem clock total_bytes virt pfn s i hi⟩

/-- Witness for C19: one pass over one element holding 7 gives 105, 21 and 28; the experiment
on a block of 24 bytes leaves `2 * 15 ^ 20`, `6 * 15 ^ 19` and `8 * 15 ^ 19` modulo `2 ^ 64`. -/
theorem kstream_pass_times_fifteen_witness :
    (kstream_pass 0 1 2 1 uniform_mem (0 + 0) = 15 * uniform_mem (0 + 0) % U64 ∧
      kstream_pass 0 1 2 1 uniform_mem (1 + 0) = 3 * uniform_mem (0 + 0) % U64 ∧
      kstream_pass 0 1 2 1 uniform_mem (2 + 0) = 4 * uniform_mem (0 + 0) % U64) ∧
    ((kstream_run_single_runs steady_clock 24 (fun _ => 0) 0 machine0).2.2.mem (0 + 0) =
        2 * 15 ^ 20 % U64 ∧
      (kstream_run_single_runs steady_clock 24 (fun _ => 0) 0 machine0).2.2.mem
        (0 + array_size 24 + 0) = 6 * 15 ^ 19 % U64 ∧
      (kstream_run_single_runs steady_clock 24 (fun _ => 0) 0 machine0).2.2.mem
        (0 + array_size 24 + array_size 24 + 0) = 8 * 15 ^ 19 % U64) :=
  ⟨(kstream_pass_times_fifteen steady_clock 24 (fun _ => 0) 0 machine0).1 0 1 2 1 uniform_mem 0
      (by decide) (by decide) (by decide),
   (kstream_pass_times_fifteen steady_clock 24 (fun _ => 0) 0 machine0).2 0 (by decide)⟩

/-! ### Durations under an advancing clock -/

/-- Readings that strictly increase step by step over a window do not decrease over it. -/
theorem clock_window_mono (clock : Nat → Nat) (r L : Nat)
    (h : ∀ i, i < L → clock (r + i) < clock (r + i + 1)) :
    ∀ j, j ≤ L → ∀ i, i ≤ j → clock (r + i) ≤ clock (r + j) := by
  intro j
  induction j with
  | zero =>
    intro _ i hi
    have : i = 0 := by omega
    subst this
    exact Nat.le_refl _
  | succ j ih =>
    intro hj i hi
    rcases Nat.lt_or_ge i (j + 1) with hlt | hge
    · have h1 := ih (by omega) i (by omega)
      have h2 : clock (r + j) < clock (r + (j + 1)) := h j (by omega)
      omega
    · have : i = j + 1 := by omega
      subst this
      exact Nat.le_refl _

/-- Between two readings of which the second is larger and fits in 64 bits, at least one unit
elapses. -/
theorem elapsed_pos (clock : Nat → Nat) (i : Nat) (h : clock i < clock (i + 1))
    (hfit : clock (i + 1) < U64) : 1 ≤ elapsed clock i := by
  rw [elapsed_of_le clock i (Nat.le_of_lt h) hfit]
  omega

/-- When the 8 readings of an iteration of the uncached kernel do not decrease and fit in 64
bits, the `uint64_t` sum of the iteration is the exact sum of the four differences. -/
theorem nocache_sum_exact (clock : Nat → Nat) (r : Nat)
    (hmono : ∀ i, i < 7 → clock (r + i) ≤ clock (r + i + 1)) (hfit : clock (r + 7) < U64) :
    (elapsed clock r + elapsed clock (r + 2) + elapsed clock (r + 4) + elapsed clock (r + 6)) %
        U64 =
      (clock (r + 1) - clock r) + (clock (r + 3) - clock (r + 2)) +
        (clock (r + 5) - clock (r + 4)) + (clock (r + 7) - clock (r + 6)) ∧
    (clock (r + 1) - clock r) + (clock (r + 3) - clock (r + 2)) +
        (clock (r + 5) - clock (r + 4)) + (clock (r + 7) - clock (r + 6)) < U64 := by
  have h0 : clock r ≤ clock (r + 1) := hmono 0 (by omega)
  have h1 : clock (r + 1) ≤ clock (r + 2) := hmono 1 (by omega)
  have h2 : clock (r + 2) ≤ clock (r + 3) := hmono 2 (by omega)
  have h3 : clock (r + 3) ≤ clock (r + 4) := hmono 3 (by omega)
  have h4 : clock (r + 4) ≤ clock (r + 5) := hmono 4 (by omega)
  have h5 : clock (r + 5) ≤ clock (r + 6) := hmono 5 (by omega)
  have h6 : clock (r + 6) ≤ clock (r + 7) := hmono 6 (by omega)
  have f1 : clock (r + 1) < U64 := by omega
  have f3 : clock (r + 3) < U64 := by omega
  have f5 : clock (r + 5) < U64 := by omega
  have e0 : elapsed clock r = clock (r + 1) - clock r := elapsed_of_le clock r h0 f1
  have e1 : elapsed clock (r + 2) = clock (r + 3) - clock (r + 2) :=
    elapsed_of_le clock (r + 2) h2 f3
  have e2 : elapsed clock (r + 4) = clock (r + 5) - clock (r + 4) :=
    elapsed_of_le clock (r + 4) h4 f5
  have e3 : elapsed clock (r + 6) = clock (r + 7) - clock (r + 6) :=
    elapsed_of_le clock (r + 6) h6 hfit
  have hlt : (clock (r + 1) - clock r) + (clock (r + 3) - clock (r + 2)) +
      (clock (r + 5) - clock (r + 4)) + (clock (r + 7) - clock (r + 6)) < U64 := by omega
  rw [e0, e1, e2, e3]
  exact ⟨Nat.mod_eq_of_lt hlt, hlt⟩

/-- With 20 strictly increasing readings that fit in 64 bits, the cached kernel returns at
least 1. -/
theorem kstream_run_single_cache_pos (clock : Nat → Nat) (a b c n : Nat) (s : Machine)
    (h : ∀ i, i < 19 → clock (s.reads + i) < clock (s.reads + i + 1))
    (hfit : clock (s.reads + 19) < U64) :
    1 ≤ (kstream_run_single_cache clock a b c n s).1 := by
  have hmono := clock_window_mono clock s.reads 19 (fun i hi => h i hi)
  obtain ⟨k, hk, hbest⟩ := (forI_min_spec (fun j => elapsed clock (s.reads + 2 * j)) 10
    (by decide) (fun k => elapsed_lt clock _)).1
  have hrun : (kstream_run_single_cache clock a b c n s).1 =
      forI (fun j acc => min acc (elapsed clock (s.reads + 2 * j))) 10 ULONG_MAX :=
    congrArg (fun x => x.1) (cache_iterations_eq clock a b c n ULONG_MAX s 10)
  rw [hrun, hbest]
  have h1 : clock (s.reads + 2 * k) < clock (s.reads + 2 * k + 1) := h (2 * k) (by omega)
  have h2 : clock (s.reads + (2 * k + 1)) ≤ clock (s.reads + 19) :=
    hmono 19 (Nat.le_refl _) (2 * k + 1) (by omega)
  have h3 : clock (s.reads + 2 * k + 1) < U64 := Nat.lt_of_le_of_lt h2 hfit
  exact elapsed_pos clock (s.reads + 2 * k) h1 h3

/-- With 80 strictly increasing readings that fit in 64 bits, every per-iteration sum of the
uncached kernel is the exact sum of its four differences, which is at least 4 and fits in 64
bits. -/
theorem nocache_sum_of_increasing (clock : Nat → Nat) (r : Nat)
    (h : ∀ i, i < 79 → clock (r + i) < clock (r + i + 1)) (hfit : clock (r + 79) < U64)
    (k : Nat) (hk : k < 10) :
    nocache_sum clock r k =
      (clock (r + 8 * k + 1) - clock (r + 8 * k)) +
      (clock (r + 8 * k + 3) - clock (r + 8 * k + 2)) +
      (clock (r + 8 * k + 5) - clock (r + 8 * k + 4)) +
      (clock (r + 8 * k + 7) - clock (r + 8 * k + 6)) ∧
    (clock (r + 8 * k + 1) - clock (r + 8 * k)) +
      (clock (r + 8 * k + 3) - clock (r + 8 * k + 2)) +
      (clock (r + 8 * k + 5) - clock (r + 8 * k + 4)) +
      (clock (r + 8 * k + 7) - clock (r + 8 * k + 6)) < U64 ∧
    4 ≤ nocache_sum clock r k := by
  have hmono := clock_window_mono clock r 79 (fun i hi => h i hi)
  have hstep : ∀ i, i < 7 → clock (r + 8 * k + i) < clock (r + 8 * k + i + 1) := by
    intro i hi
    have := h (8 * k + i) (by omega)
    rwa [← Nat.add_assoc] at this
  have hlast : clock (r + 8 * k + 7) < U64 := by
    have := hmono 79 (Nat.le_refl _) (8 * k + 7) (by omega)
    rw [← Nat.add_assoc] at this
    exact Nat.lt_of_le_of_lt this hfit
  obtain ⟨hsum, hlt⟩ := nocache_sum_exact clock (r + 8 * k)
    (fun i hi => Nat.le_of_lt (hstep i hi)) hlast
  have hval := nocache_sum_eq_mod clock r k
  rw [hsum] at hval
  refine ⟨hval, hlt, ?_⟩
  rw [hval]
  have h0 : clock (r + 8 * k) < clock (r + 8 * k + 1) := hstep 0 (by omega)
  have h2 : clock (r + 8 * k + 2) < clock (r + 8 * k + 3) := hstep 2 (by omega)
  have h4 : clock (r + 8 * k + 4) < clock (r + 8 * k + 5) := hstep 4 (by omega)
  have h6 : clock (r + 8 * k + 6) < clock (r + 8 * k + 7) := hstep 6 (by omega)
  omega

/-- With 80 strictly increasing readings that fit in 64 bits, the uncached kernel returns at
least 1. -/
theorem kstream_run_single_nocache_pos (clock : Nat → Nat) (a b c n : Nat) (s : Machine)
    (h : ∀ i, i < 79 → clock (s.reads + i) < clock (s.reads + i + 1))
    (hfit : clock (s.reads + 79) < U64) :
    1 ≤ (kstream_run_single_nocache clock a b c n s).1 := by
  obtain ⟨k, hk, hbest⟩ := (forI_min_spec (fun j => nocache_sum clock s.reads j) 10
    (by decide) (fun k => nocache_sum_lt clock _ k)).1
  have hrun : (kstream_run_single_nocache clock a b c n s).1 =
      forI (fun j acc => min acc (nocache_sum clock s.reads j)) 10 ULONG_MAX :=
    congrArg (fun x => x.1) (nocache_iterations_eq clock a b c n ULONG_MAX s 10)
  rw [hrun, hbest]
  have := (nocache_sum_of_increasing clock s.reads h hfit k hk).2.2
  omega

/-- With 100 strictly increasing readings that fit in 64 bits, both durations of
`kstream_run_single` are at least 1. -/
theorem kstream_run_single_runs_pos (clock : Nat → Nat) (total_bytes : Nat) (virt : Nat → Nat)
    (pfn : Nat) (s : Machine)
    (h : ∀ i, i < 99 → clock (s.reads + i) < clock (s.reads + i + 1))
    (hfit : clock (s.reads + 99) < U64) :
    1 ≤ (kstream_run_single_runs clock total_bytes virt pfn s).1 ∧
    1 ≤ (kstream_run_single_runs clock total_bytes virt pfn s).2.1 := by
  have hmono := clock_window_mono clock s.reads 99 (fun i hi => h i hi)
  unfold kstream_run_single_runs
  simp only
  constructor
  · apply kstream_run_single_cache_pos
    · intro i hi
      exact h i (by omega)
    · exact Nat.lt_of_le_of_lt (hmono 99 (Nat.le_refl _) 19 (by omega)) hfit
  · apply kstream_run_single_nocache_pos
    · intro i hi
      rw [kstream_run_single_cache_reads]
      have := h (20 + i) (by omega)
      rwa [← Nat.add_assoc] at this
    · rw [kstream_run_single_cache_reads]
      exact hfit

/-- With memory that stores what is written, the validation loop of `kstream_run_single` passes
on the memory left by the two runs. -/
theorem kstream_run_single_check_passes (clock : Nat → Nat) (total_bytes : Nat)
    (virt : Nat → Nat) (pfn : Nat) (s : Machine) :
    kstream_validate_loop (kstream_run_single_runs clock total_bytes virt pfn s).2.2.mem
      (virt pfn) (virt pfn + array_size total_bytes)
      (virt pfn + array_size total_bytes + array_size total_bytes)
      (array_size total_bytes - 1) 1 = true := by
  rw [kstream_validate_iff]
  intro i hi
  have h0 := kstream_run_single_runs_elem clock total_bytes virt pfn s 0 (by omega)
  have hi2 := kstream_run_single_runs_elem clock total_bytes virt pfn s i hi
  simp only [Nat.add_zero] at h0
  rw [hi2.1, hi2.2.1, hi2.2.2, h0.1, h0.2.1, h0.2.2]
  exact ⟨rfl, rfl, rfl⟩

/-- The experiment never ends with the mismatch report, and it ends with the report line
unless one of the two durations is 0. -/
theorem kstream_run_single_outcome (clock : Nat → Nat) (total_bytes : Nat)
    (virt : Nat → Nat) (pfn : Nat) (s : Machine) :
    (kstream_run_single clock total_bytes virt pfn s).1 ≠ Outcome.mismatch ∧
    ((kstream_run_single_runs clock total_bytes virt pfn s).1 ≠ 0 →
      (kstream_run_single_runs clock total_bytes virt pfn s).2.1 ≠ 0 →
      (kstream_run_single clock total_bytes virt pfn s).1 ≠ Outcome.divide_error ∧
      (kstream_run_single clock total_bytes virt pfn s).1.ret = some 0) := by
  have hpass := kstream_run_single_check_passes clock total_bytes virt pfn s
  unfold kstream_run_single kstream_run_single_tail
  simp only [array_ptrs, hpass, Bool.not_true, Bool.false_eq_true, if_false]
  constructor
  · split <;> exact fun h => Outcome.noConfusion h
  · intro htc htnc
    rw [if_neg (not_or.mpr ⟨htnc, htc⟩)]
    exact ⟨fun h => Outcome.noConfusion h, rfl⟩

/-- Claim C20: when the clock readings strictly increase and fit in 64 bits, the cached kernel
(20 readings) and the uncached kernel (80 readings) return at least 1, every four-phase sum of
the uncached kernel is the exact sum of its four differences and is below `2 ^ 64`, and
`kstream_run_single` (100 readings) does not divide by zero; with the clock that advances once
every 16 readings, which never decreases, the cached duration is 0 and the experiment on a
block of 24 bytes ends in the division by zero. -/
theorem kstream_durations_positive (clock : Nat → Nat) (a b c n : Nat) (s : Machine) :
    ((∀ i, i < 19 → clock (s.reads + i) < clock (s.reads + i + 1)) →
      clock (s.reads + 19) < U64 →
      1 ≤ (kstream_run_single_cache clock a b c n s).1) ∧
    ((∀ i, i < 79 → clock (s.reads + i) < clock (s.reads + i + 1)) →
      clock (s.reads + 79) < U64 →
      1 ≤ (kstream_run_single_nocache clock a b c n s).1 ∧
      ∀ k, k < 10 →
        nocache_sum clock s.reads k =
          (clock (s.reads + 8 * k + 1) - clock (s.reads + 8 * k)) +
          (clock (s.reads + 8 * k + 3) - clock (s.reads + 8 * k + 2)) +
          (clock (s.reads + 8 * k + 5) - clock (s.reads + 8 * k + 4)) +
          (clock (s.reads + 8 * k + 7) - clock (s.reads + 8 * k + 6)) ∧
        (clock (s.reads + 8 * k + 1) - clock (s.reads + 8 * k)) +
          (clock (s.reads + 8 * k + 3) - clock (s.reads + 8 * k + 2)) +
          (clock (s.reads + 8 * k + 5) - clock (s.reads + 8 * k + 4)) +
          (clock (s.reads + 8 * k + 7) - clock (s.reads + 8 * k + 6)) < U64) ∧
    (∀ (total_bytes : Nat) (virt : Nat → Nat) (pfn : Nat),
      (∀ i, i < 99 → clock (s.reads + i) < clock (s.reads + i + 1)) →
      clock (s.reads + 99) < U64 →
      1 ≤ (kstream_run_single_runs clock total_bytes virt pfn s).1 ∧
      1 ≤ (kstream_run_single_runs clock total_bytes virt pfn s).2.1 ∧
      (kstream_run_single clock total_bytes virt pfn s).1 ≠ Outcome.divide_error) ∧
    ((∀ i, coarse_clock i ≤ coarse_clock (i + 1)) ∧
      (kstream_run_single_runs coarse_clock 24 (fun _ => 0) 0 machine0).1 = 0 ∧
      (kstream_run_single coarse_clock 24 (fun _ => 0) 0 machine0).1 =
        Outcome.divide_error) := by
  refine ⟨fun h hfit => kstream_run_single_cache_pos clock a b c n s h hfit, ?_, ?_, ?_⟩
  · intro h hfit
    refine ⟨kstream_run_single_nocache_pos clock a b c n s h hfit, fun k hk => ?_⟩
    exact ⟨(nocache_sum_of_increasing clock s.reads h hfit k hk).1,
      (nocache_sum_of_increasing clock s.reads h hfit k hk).2.1⟩
  · intro total_bytes virt pfn h hfit
    obtain ⟨htc, htnc⟩ := kstream_run_single_runs_pos clock total_bytes virt pfn s h hfit
    exact ⟨htc, htnc, ((kstream_run_single_outcome clock total_bytes virt pfn s).2
      (by omega) (by omega)).1⟩
  · refine ⟨fun i => Nat.div_le_div_right (Nat.le_succ i), by decide, by decide⟩

/-- Witness for C20: with the clock that advances by one unit per reading, the durations of the
experiment on a block of 24 bytes are at least 1 and no division by zero happens. -/
theorem kstream_durations_positive_witness :
    (1 ≤ (kstream_run_single_cache steady_clock 0 1 2 1 machine0).1) ∧
    (1 ≤ (kstream_run_single_nocache steady_clock 0 1 2 1 machine0).1) ∧
    (1 ≤ (kstream_run_single_runs steady_clock 24 (fun _ => 0) 0 machine0).1 ∧
      1 ≤ (kstream_run_single_runs steady_clock 24 (fun _ => 0) 0 machine0).2.1 ∧
      (kstream_run_single steady_clock 24 (fun _ => 0) 0 machine0).1 ≠
        Outcome.divide_error) :=
  ⟨(kstream_durations_positive steady_clock 0 1 2 1 machine0).1
      (fun i _ => Nat.lt_succ_self (machine0.reads + i)) (by decide),
   ((kstream_durations_positive steady_clock 0 1 2 1 machine0).2.1
      (fun i _ => Nat.lt_succ_self (machine0.reads + i)) (by decide)).1,
   (kstream_durations_positive steady_clock 0 1 2 1 machine0).2.2.1 24 (fun _ => 0) 0
      (fun i _ => Nat.lt_succ_self (machine0.reads + i)) (by decide)⟩

/-! ### Uniform arrays stay uniform -/

/-- One pass keeps each of the three arrays uniform. -/
theorem kstream_pass_uniform (a b c n : Nat) (m : Mem) (h1 : a + n ≤ b) (h2 : b + n ≤ c)
    (hu : ∀ i, i < n → m (a + i) = m a ∧ m (b + i) = m b ∧ m (c + i) = m c) :
    ∀ i, i < n → kstream_pass a b c n m (a + i) = kstream_pass a b c n m a ∧
      kstream_pass a b c n m (b + i) = kstream_pass a b c n m b ∧
      kstream_pass a b c n m (c + i) = kstream_pass a b c n m c := by
  intro i hi
  obtain ⟨pa, pb, pc⟩ := kstream_pass_closed a b c n m h1 h2 i hi
  obtain ⟨qa, qb, qc⟩ := kstream_pass_closed a b c n m h1 h2 0 (by omega)
  simp only [Nat.add_zero] at qa qb qc
  rw [pa, pb, pc, qa, qb, qc, (hu i hi).1]
  exact ⟨rfl, rfl, rfl⟩

/-- Any number of passes keeps each of the three arrays uniform. -/
theorem kstream_passes_uniform (a b c n : Nat) (m : Mem) (h1 : a + n ≤ b) (h2 : b + n ≤ c)
    (hu : ∀ i, i < n → m (a + i) = m a ∧ m (b + i) = m b ∧ m (c + i) = m c) (k : Nat) :
    ∀ i, i < n →
      forI (fun _ mem => kstream_pass a b c n mem) k m (a + i) =
        forI (fun _ mem => kstream_pass a b c n mem) k m a ∧
      forI (fun _ mem => kstream_pass a b c n mem) k m (b + i) =
        forI (fun _ mem => kstream_pass a b c n mem) k m b ∧
      forI (fun _ mem => kstream_pass a b c n mem) k m (c + i) =
        forI (fun _ mem => kstream_pass a b c n mem) k m c := by
  induction k with
  | zero => exact hu
  | succ k ih => exact kstream_pass_uniform a b c n _ h1 h2 ih

/-- Uniformity is kept: on three arrays that follow each other without overlap, if each of `a`,
`b`, `c` has all its elements equal before a run of `kstream_run_single_cache` or of
`kstream_run_single_nocache`, each has all its elements equal after it; and `kstream_run_single`
never ends with the mismatch report and never returns `-EIO`: it returns 0 whenever its two
durations are non-zero, in particular whenever its 100 clock readings strictly increase and
fit in 64 bits. -/
theorem kstream_uniformity_preserved (clock : Nat → Nat) (s : Machine) :
    (∀ a b c n, a + n ≤ b → b + n ≤ c →
      (∀ i, i < n → s.mem (a + i) = s.mem a ∧ s.mem (b + i) = s.mem b ∧
        s.mem (c + i) = s.mem c) →
      (∀ i, i < n →
        (kstream_run_single_cache clock a b c n s).2.mem (a + i) =
          (kstream_run_single_cache clock a b c n s).2.mem a ∧
        (kstream_run_single_cache clock a b c n s).2.mem (b + i) =
          (kstream_run_single_cache clock a b c n s).2.mem b ∧
        (kstream_run_single_cache clock a b c n s).2.mem (c + i) =
          (kstream_run_single_cache clock a b c n s).2.mem c) ∧
      (∀ i, i < n →
        (kstream_run_single_nocache clock a b c n s).2.mem (a + i) =
          (kstream_run_single_nocache clock a b c n s).2.mem a ∧
        (kstream_run_single_nocache clock a b c n s).2.mem (b + i) =
          (kstream_run_single_nocache clock a b c n s).2.mem b ∧
        (kstream_run_single_nocache clock a b c n s).2.mem (c + i) =
          (kstream_run_single_nocache clock a b c n s).2.mem c)) ∧
    (∀ (total_bytes : Nat) (virt : Nat → Nat) (pfn : Nat),
      (kstream_run_single clock total_bytes virt pfn s).1 ≠ Outcome.mismatch ∧
      (kstream_run_single clock total_bytes virt pfn s).1.ret ≠ some (U64 - 5) ∧
      ((kstream_run_single_runs clock total_bytes virt pfn s).1 ≠ 0 →
        (kstream_run_single_runs clock total_bytes virt pfn s).2.1 ≠ 0 →
        (kstream_run_single clock total_bytes virt pfn s).1.ret = some 0) ∧
      ((∀ i, i < 99 → clock (s.reads + i) < clock (s.reads + i + 1)) →
        clock (s.reads + 99) < U64 →
        (kstream_run_single clock total_bytes virt pfn s).1.ret = some 0)) := by
  constructor
  · intro a b c n h1 h2 hu
    rw [kstream_run_single_cache_mem, kstream_run_single_nocache_mem]
    exact ⟨kstream_passes_uniform a b c n s.mem h1 h2 hu 10,
      kstream_passes_uniform a b c n s.mem h1 h2 hu 10⟩
  · intro total_bytes virt pfn
    obtain ⟨hne, hret⟩ := kstream_run_single_outcome clock total_bytes virt pfn s
    refine ⟨hne, ?_, fun htc htnc => (hret htc htnc).2, ?_⟩
    · intro h
      cases hout : (kstream_run_single clock total_bytes virt pfn s).1 with
      | mismatch => exact hne hout
      | report x y =>
        rw [hout] at h
        simp only [Outcome.ret, Option.some.injEq] at h
        unfold U64 at h
        omega
      | divide_error =>
        rw [hout] at h
        simp [Outcome.ret] at h
    · intro h hfit
      obtain ⟨htc, htnc⟩ := kstream_run_single_runs_pos clock total_bytes virt pfn s h hfit
      exact (hret (by omega) (by omega)).2

/-- Uniformity on an input: three elements per array that all hold 7 are uniform after a cached
run (element 1 equals element 0 in each array); the experiment on a block of 24 bytes with the
clock that advances by one unit per reading returns 0. -/
theorem kstream_uniformity_preserved_witness :
    ((kstream_run_single_cache steady_clock 0 3 6 3 ⟨uniform_mem, 0, []⟩).2.mem (0 + 1) =
        (kstream_run_single_cache steady_clock 0 3 6 3 ⟨uniform_mem, 0, []⟩).2.mem 0 ∧
      (kstream_run_single_cache steady_clock 0 3 6 3 ⟨uniform_mem, 0, []⟩).2.mem (3 + 1) =
        (kstream_run_single_cache steady_clock 0 3 6 3 ⟨uniform_mem, 0, []⟩).2.mem 3 ∧
      (kstream_run_single_cache steady_clock 0 3 6 3 ⟨uniform_mem, 0, []⟩).2.mem (6 + 1) =
        (kstream_run_single_cache steady_clock 0 3 6 3 ⟨uniform_mem, 0, []⟩).2.mem 6) ∧
    (kstream_run_single steady_clock 24 (fun _ => 0) 0 machine0).1.ret = some 0 :=
  ⟨((kstream_uniformity_preserved steady_clock ⟨uniform_mem, 0, []⟩).1 0 3 6 3 (by decide)
      (by decide) (fun _ _ => ⟨rfl, rfl, rfl⟩)).1 1 (by decide),
   ((kstream_uniformity_preserved steady_clock machine0).2 24 (fun _ => 0) 0).2.2.2
      (fun i _ => Nat.lt_succ_self (machine0.reads + i)) (by decide)⟩

/-! ### The validator, unit by unit -/

/-- The recording loop returns the verdict of the loop of `kstream_block_valid`, and the units
it looked up are consecutive, starting at the first unit of the walk; when the verdict is true
it looked up all `count` units. -/
theorem kstream_block_valid_loop_probes_spec (mm : MemMap) (zone : Nat) :
    ∀ count pfn,
      (kstream_block_valid_loop_probes mm zone count pfn).1 =
        kstream_block_valid_loop mm zone count pfn ∧
      ∃ len, len ≤ count ∧
        (kstream_block_valid_loop_probes mm zone count pfn).2 = List.range' pfn len ∧
        ((kstream_block_valid_loop_probes mm zone count pfn).1 = true → len = count) := by
  intro count
  induction count with
  | zero =>
    intro pfn
    exact ⟨rfl, 0, Nat.le_refl _, rfl, fun _ => rfl⟩
  | succ count ih =>
    intro pfn
    have hstop : kstream_block_valid_loop_probes mm zone (count + 1) pfn = (false, [pfn]) →
        kstream_block_valid_loop mm zone (count + 1) pfn = false →
        (kstream_block_valid_loop_probes mm zone (count + 1) pfn).1 =
          kstream_block_valid_loop mm zone (count + 1) pfn ∧
        ∃ len, len ≤ count + 1 ∧
          (kstream_block_valid_loop_probes mm zone (count + 1) pfn).2 = List.range' pfn len ∧
          ((kstream_block_valid_loop_probes mm zone (count + 1) pfn).1 = true →
            len = count + 1) := by
      intro e1 e2
      rw [e1, e2]
      exact ⟨rfl, 1, by omega, rfl, fun h => by simp at h⟩
    cases hp : mm.pfn_to_online_page pfn with
    | none =>
      exact hstop (by simp [kstream_block_valid_loop_probes, hp])
        (by simp [kstream_block_valid_loop, hp])
    | some page =>
      cases hz : (page.zone != zone) with
      | true =>
        exact hstop (by simp [kstream_block_valid_loop_probes, hp, hz])
          (by simp [kstream_block_valid_loop, hp, hz])
      | false =>
        cases hs : mm.zone_spans_pfn zone pfn with
        | false =>
          exact hstop (by simp [kstream_block_valid_loop_probes, hp, hz, hs])
            (by simp [kstream_block_valid_loop, hp, hz, hs])
        | true =>
          cases hr : page.reserved with
          | true =>
            exact hstop (by simp [kstream_block_valid_loop_probes, hp, hz, hs, hr])
              (by simp [kstream_block_valid_loop, hp, hz, hs, hr])
          | false =>
            have e1 : kstream_block_valid_loop_probes mm zone (count + 1) pfn =
                ((kstream_block_valid_loop_probes mm zone count (pfn + 1)).1,
                  pfn :: (kstream_block_valid_loop_probes mm zone count (pfn + 1)).2) := by
              rw [kstream_block_valid_loop_probes]
              simp [hp, hz, hs, hr]
            have e2 : kstream_block_valid_loop mm zone (count + 1) pfn =
                kstream_block_valid_loop mm zone count (pfn + 1) := by
              rw [kstream_block_valid_loop]
              simp [hp, hz, hs, hr]
            obtain ⟨hv, len, hle, hlist, hall⟩ := ih (pfn + 1)
            rw [e1, e2]
            refine ⟨hv, len + 1, by omega, ?_, fun h => ?_⟩
            · show pfn :: (kstream_block_valid_loop_probes mm zone count (pfn + 1)).2 =
                List.range' pfn (len + 1)
              rw [hlist]
              rfl
            · rw [hall h]

/-- The validator on an aligned block that ends below `2 ^ 64`, in terms of its loop: a false
verdict after one lookup when the first unit is not online, else the verdict of the loop over
the `G - 1` units that follow the first. -/
theorem kstream_block_valid_unfold (mm : MemMap) (G start : Nat) (hG : 0 < G)
    (halign : IS_ALIGNED start G = true) (hfit : start + G < U64) :
    (mm.pfn_to_online_page start = none →
      kstream_block_valid mm G start = some false ∧
      kstream_block_valid_probes mm G start = some (false, [start])) ∧
    (∀ first, mm.pfn_to_online_page start = some first →
      kstream_block_valid mm G start =
        some (kstream_block_valid_loop mm first.zone (G - 1) (start + 1)) ∧
      kstream_block_valid_probes mm G start =
        some ((kstream_block_valid_loop_probes mm first.zone (G - 1) (start + 1)).1,
          start :: (kstream_block_valid_loop_probes mm first.zone (G - 1) (start + 1)).2)) := by
  have e1 : (start + G) % U64 = start + G := Nat.mod_eq_of_lt hfit
  have e2 : (start + 1) % U64 = start + 1 := Nat.mod_eq_of_lt (by omega)
  have e3 : start + G - (start + 1) = G - 1 := by omega
  constructor
  · intro hnone
    simp [kstream_block_valid, kstream_block_valid_probes, halign, hnone]
  · intro first hfirst
    simp [kstream_block_valid, kstream_block_valid_probes, halign, hfirst, e1, e2, e3]

/-- Claim C16, as amended: for an aligned start address of a block that ends below `2 ^ 64`
(`start + G < 2 ^ 64`, `G > 0`), `kstream_block_valid` returns a verdict, and the verdict is
true exactly when the unit at `start` is online and every unit `p` in `[start + 1, start + G)` is online, in the zone of the
unit at `start`, spanned by that zone and not reserved; when the first unit is not online the
verdict is false after that single lookup; and the units are looked up in increasing address
order, `start, start + 1, ...`, all `G` of them when the verdict is true. -/
theorem kstream_block_valid_iff (mm : MemMap) (G start : Nat) (hG : 0 < G)
    (halign : IS_ALIGNED start G = true) (hfit : start + G < U64) :
    (kstream_block_valid mm G start = some true ↔
      ∃ first, mm.pfn_to_online_page start = some first ∧
        ∀ p, start + 1 ≤ p → p < start + G →
          ∃ page, mm.pfn_to_online_page p = some page ∧ page.zone = first.zone ∧
            mm.zone_spans_pfn first.zone p = true ∧ page.reserved = false) ∧
    (mm.pfn_to_online_page start = none →
      kstream_block_valid mm G start = some false ∧
      kstream_block_valid_probes mm G start = some (false, [start])) ∧
    (∃ verdict len, kstream_block_valid mm G start = some verdict ∧
      kstream_block_valid_probes mm G start = some (verdict, List.range' start len) ∧
      1 ≤ len ∧ len ≤ G ∧ (verdict = true → len = G)) := by
  obtain ⟨hnone, hsome⟩ := kstream_block_valid_unfold mm G start hG halign hfit
  refine ⟨?_, hnone, ?_⟩
  · cases hp : mm.pfn_to_online_page start with
    | none =>
      rw [(hnone hp).1]
      constructor
      · intro h
        simp at h
      · rintro ⟨first, hf, _⟩
        simp at hf
    | some first =>
      rw [(hsome first hp).1, Option.some.injEq, kstream_block_valid_loop_iff]
      constructor
      · intro h
        refine ⟨first, rfl, fun p hlo hhi => ?_⟩
        have := h (p - (start + 1)) (by omega)
        rwa [show start + 1 + (p - (start + 1)) = p by omega] at this
      · rintro ⟨first2, hf, h⟩ k hk
        have hfeq : first2 = first := (Option.some.inj hf).symm
        subst hfeq
        exact h (start + 1 + k) (by omega) (by omega)
  · cases hp : mm.pfn_to_online_page start with
    | none =>
      exact ⟨false, 1, (hnone hp).1, (hnone hp).2, Nat.le_refl _, hG, fun h => by simp at h⟩
    | some first =>
      obtain ⟨hv, len, hle, hlist, hall⟩ :=
        kstream_block_valid_loop_probes_spec mm first.zone (G - 1) (start + 1)
      refine ⟨kstream_block_valid_loop mm first.zone (G - 1) (start + 1), len + 1,
        (hsome first hp).1, ?_, by omega, by omega, fun h => ?_⟩
      · rw [(hsome first hp).2, hv, hlist]
        rfl
      · rw [hv] at hall
        have := hall h
        omega

/-- Witness for C16: the block of 4 units at address 0, all online, in zone 0, spanned and not
reserved, is valid, and the validator looked up the units 0, 1, 2, 3 in this order. -/
theorem kstream_block_valid_iff_witness :
    kstream_block_valid mm_all_valid 4 0 = some true ∧
    ∃ verdict len, kstream_block_valid mm_all_valid 4 0 = some verdict ∧
      kstream_block_valid_probes mm_all_valid 4 0 = some (verdict, List.range' 0 len) ∧
      1 ≤ len ∧ len ≤ 4 ∧ (verdict = true → len = 4) :=
  ⟨(kstream_block_valid_iff mm_all_valid 4 0 (by decide) (by decide) (by decide)).1.2
      ⟨⟨0, false⟩, rfl, fun _ _ _ => ⟨⟨0, false⟩, rfl, rfl, rfl, rfl⟩⟩,
   (kstream_block_valid_iff mm_all_valid 4 0 (by decide) (by decide) (by decide)).2.2⟩

/-! ### One turn of the scan, case by case -/

/-- The nine ways in which one turn of `kstream_fn` can go. -/
theorem kstream_fn_step_cases (env : Env) (w : Worker) :
    ((w.phase = Phase.stopped ∨ w.phase = Phase.bug) ∧ kstream_fn_step env w = w) ∨
    (w.phase = Phase.scanning ∧ ¬ w.pfn < env.max_pfn ∧
      kstream_fn_step env w = ⟨Phase.idle_wait, w.pfn, w.polls, w.trace⟩) ∨
    (w.phase = Phase.scanning ∧ w.pfn < env.max_pfn ∧
      env.kthread_should_stop w.polls = true ∧
      kstream_fn_step env w = ⟨Phase.idle_wait, w.pfn, w.polls + 1, w.trace⟩) ∨
    (w.phase = Phase.scanning ∧ w.pfn < env.max_pfn ∧
      env.kthread_should_stop w.polls = false ∧
      kstream_block_valid env.mm env.G w.pfn = none ∧
      kstream_fn_step env w = ⟨Phase.bug, w.pfn, w.polls + 1, w.trace⟩) ∨
    (w.phase = Phase.scanning ∧ w.pfn < env.max_pfn ∧
      env.kthread_should_stop w.polls = false ∧
      kstream_block_valid env.mm env.G w.pfn = some false ∧
      kstream_fn_step env w = ⟨Phase.scanning, (w.pfn + env.G) % U64, w.polls + 1,
        w.trace ++ [Event.validate w.pfn false]⟩) ∨
    (w.phase = Phase.scanning ∧ w.pfn < env.max_pfn ∧
      env.kthread_should_stop w.polls = false ∧
      kstream_block_valid env.mm env.G w.pfn = some true ∧
      env.alloc_contig_range (w.polls + 1) w.pfn ≠ 0 ∧
      kstream_fn_step env w = ⟨Phase.scanning, (w.pfn + env.G) % U64, w.polls + 1,
        w.trace ++ [Event.validate w.pfn true,
          Event.claim w.pfn ((w.pfn + env.G) % U64)
            (env.alloc_contig_range (w.polls + 1) w.pfn)]⟩) ∨
    (w.phase = Phase.scanning ∧ w.pfn < env.max_pfn ∧
      env.kthread_should_stop w.polls = false ∧
      kstream_block_valid env.mm env.G w.pfn = some true ∧
      env.alloc_contig_range (w.polls + 1) w.pfn = 0 ∧
      kstream_fn_step env w = ⟨Phase.scanning, (w.pfn + env.G) % U64, w.polls + 1,
        w.trace ++ [Event.validate w.pfn true, Event.claim w.pfn ((w.pfn + env.G) % U64) 0,
          Event.experiment w.pfn (env.run_single w.pfn), Event.release w.pfn env.G,
          Event.resched]⟩) ∨
    (w.phase = Phase.idle_wait ∧ env.kthread_should_stop w.polls = true ∧
      kstream_fn_step env w = ⟨Phase.stopped, w.pfn, w.polls + 1, w.trace⟩) ∨
    (w.phase = Phase.idle_wait ∧ env.kthread_should_stop w.polls = false ∧
      kstream_fn_step env w = ⟨Phase.idle_wait, w.pfn, w.polls + 1,
        w.trace ++ [Event.idle]⟩) := by
  cases hph : w.phase with
  | stopped =>
    left
    exact ⟨Or.inl rfl, by simp [kstream_fn_step, hph]⟩
  | bug =>
    left
    exact ⟨Or.inr rfl, by simp [kstream_fn_step, hph]⟩
  | idle_wait =>
    cases hs : env.kthread_should_stop w.polls with
    | true =>
      right; right; right; right; right; right; right; left
      exact ⟨rfl, rfl, by simp [kstream_fn_step, hph, hs]⟩
    | false =>
      right; right; right; right; right; right; right; right
      exact ⟨rfl, rfl, by simp [kstream_fn_step, hph, hs]⟩
  | scanning =>
    by_cases hlt : w.pfn < env.max_pfn
    · cases hs : env.kthread_should_stop w.polls with
      | true =>
        right; right; left
        exact ⟨rfl, hlt, rfl, by simp [kstream_fn_step, hph, hlt, hs]⟩
      | false =>
        cases hv : kstream_block_valid env.mm env.G w.pfn with
        | none =>
          right; right; right; left
          exact ⟨rfl, hlt, rfl, rfl, by simp [kstream_fn_step, hph, hlt, hs, hv]⟩
        | some v =>
          cases v with
          | false =>
            right; right; right; right; left
            exact ⟨rfl, hlt, rfl, rfl, by simp [kstream_fn_step, hph, hlt, hs, hv, next_pfn]⟩
          | true =>
            by_cases hr : env.alloc_contig_range (w.polls + 1) w.pfn = 0
            · right; right; right; right; right; right; left
              exact ⟨rfl, hlt, rfl, rfl, hr,
                by simp [kstream_fn_step, hph, hlt, hs, hv, next_pfn, hr]⟩
            · right; right; right; right; right; left
              exact ⟨rfl, hlt, rfl, rfl, hr,
                by simp [kstream_fn_step, hph, hlt, hs, hv, next_pfn, hr]⟩
    · right; left
      exact ⟨rfl, hlt, by simp [kstream_fn_step, hph, hlt]⟩

/-! ### The shape of the trace -/

/-- One turn, taken with two different behaviours of the experiment from two workers that
agree on everything but the values the experiments returned so far, leads to two workers that
again agree on everything but those values. -/
theorem kstream_fn_step_forget (env : Env) (f : Nat → Nat) (w : Worker) (tr : List Event)
    (htr : tr.map Event.forget_ret = w.trace.map Event.forget_ret) :
    (kstream_fn_step { env with run_single := f } ⟨w.phase, w.pfn, w.polls, tr⟩).phase =
      (kstream_fn_step env w).phase ∧
    (kstream_fn_step { env with run_single := f } ⟨w.phase, w.pfn, w.polls, tr⟩).pfn =
      (kstream_fn_step env w).pfn ∧
    (kstream_fn_step { env with run_single := f } ⟨w.phase, w.pfn, w.polls, tr⟩).polls =
      (kstream_fn_step env w).polls ∧
    (kstream_fn_step { env with run_single := f } ⟨w.phase, w.pfn, w.polls, tr⟩).trace.map
      Event.forget_ret = (kstream_fn_step env w).trace.map Event.forget_ret := by
  rcases kstream_fn_step_cases env w with
    ⟨hph | hph, h⟩ | ⟨hph, hlt, h⟩ | ⟨hph, hlt, hs, h⟩ | ⟨hph, hlt, hs, hv, h⟩ |
    ⟨hph, hlt, hs, hv, h⟩ | ⟨hph, hlt, hs, hv, hr, h⟩ | ⟨hph, hlt, hs, hv, hr, h⟩ |
    ⟨hph, hs, h⟩ | ⟨hph, hs, h⟩
  · rw [h]
    simp [kstream_fn_step, hph, htr]
  · rw [h]
    simp [kstream_fn_step, hph, htr]
  · rw [h]
    simp [kstream_fn_step, hph, hlt, htr]
  · rw [h]
    simp [kstream_fn_step, hph, hlt, hs, htr]
  · rw [h]
    simp [kstream_fn_step, hph, hlt, hs, hv, htr]
  · rw [h]
    simp [kstream_fn_step, hph, hlt, hs, hv, next_pfn, htr, Event.forget_ret]
  · rw [h]
    simp [kstream_fn_step, hph, hlt, hs, hv, hr, next_pfn, htr, Event.forget_ret]
  · rw [h]
    simp [kstream_fn_step, hph, hlt, hs, hv, hr, next_pfn, htr, Event.forget_ret]
  · rw [h]
    simp [kstream_fn_step, hph, hs, htr]
  · rw [h]
    simp [kstream_fn_step, hph, hs, htr, Event.forget_ret]

/-- The scan taken with two different behaviours of the experiment: after any number of turns
the two workers agree on everything but the values the experiments returned. -/
theorem kstream_fn_run_forget (env : Env) (f : Nat → Nat) (n : Nat) :
    (kstream_fn_run { env with run_single := f } n kstream_fn_init).phase =
      (kstream_fn_run env n kstream_fn_init).phase ∧
    (kstream_fn_run { env with run_single := f } n kstream_fn_init).pfn =
      (kstream_fn_run env n kstream_fn_init).pfn ∧
    (kstream_fn_run { env with run_single := f } n kstream_fn_init).polls =
      (kstream_fn_run env n kstream_fn_init).polls ∧
    (kstream_fn_run { env with run_single := f } n kstream_fn_init).trace.map
      Event.forget_ret = (kstream_fn_run env n kstream_fn_init).trace.map Event.forget_ret := by
  induction n with
  | zero => exact ⟨rfl, rfl, rfl, rfl⟩
  | succ n ih =>
    obtain ⟨hph, hpfn, hpolls, htr⟩ := ih
    have hw : kstream_fn_run { env with run_single := f } n kstream_fn_init =
        ⟨(kstream_fn_run env n kstream_fn_init).phase, (kstream_fn_run env n kstream_fn_init).pfn,
          (kstream_fn_run env n kstream_fn_init).polls,
          (kstream_fn_run { env with run_single := f } n kstream_fn_init).trace⟩ := by
      rw [← hph, ← hpfn, ← hpolls]
    show (kstream_fn_step { env with run_single := f }
        (kstream_fn_run { env with run_single := f } n kstream_fn_init)).phase =
        (kstream_fn_step env (kstream_fn_run env n kstream_fn_init)).phase ∧
      (kstream_fn_step { env with run_single := f }
        (kstream_fn_run { env with run_single := f } n kstream_fn_init)).pfn =
        (kstream_fn_step env (kstream_fn_run env n kstream_fn_init)).pfn ∧
      (kstream_fn_step { env with run_single := f }
        (kstream_fn_run { env with run_single := f } n kstream_fn_init)).polls =
        (kstream_fn_step env (kstream_fn_run env n kstream_fn_init)).polls ∧
      (kstream_fn_step { env with run_single := f }
        (kstream_fn_run { env with run_single := f } n kstream_fn_init)).trace.map
        Event.forget_ret =
        (kstream_fn_step env (kstream_fn_run env n kstream_fn_init)).trace.map Event.forget_ret
    rw [hw]
    exact kstream_fn_step_forget env f (kstream_fn_run env n kstream_fn_init) _ htr

/-- Blanking out the values returned by the experiments does not change the addresses handed
to the validator. -/
theorem filterMap_validated_forget (tr : List Event) :
    (tr.map Event.forget_ret).filterMap Event.validated = tr.filterMap Event.validated := by
  induction tr with
  | nil => rfl
  | cons e rest ih =>
    cases e <;> simp [Event.forget_ret, Event.validated, List.filterMap_cons, ih]

/-- Claim C12: when the experiment on a claimed block returns `-EIO`, the turn still releases
the block, yields and moves on to the next candidate address with the worker in the scan loop;
and for every two behaviours of the experiment the scan is, after any number of turns, in the
same phase at the same address, has handed the same addresses to the validator and has the
same trace up to the values the experiments returned. -/
theorem kstream_fn_experiment_failure_continues (env : Env) :
    (∀ w : Worker, w.phase = Phase.scanning → w.pfn < env.max_pfn →
      env.kthread_should_stop w.polls = false →
      kstream_block_valid env.mm env.G w.pfn = some true →
      env.alloc_contig_range (w.polls + 1) w.pfn = 0 →
      env.run_single w.pfn = U64 - 5 →
      kstream_fn_step env w = ⟨Phase.scanning, (w.pfn + env.G) % U64, w.polls + 1,
        w.trace ++ [Event.validate w.pfn true, Event.claim w.pfn ((w.pfn + env.G) % U64) 0,
          Event.experiment w.pfn (U64 - 5), Event.release w.pfn env.G, Event.resched]⟩) ∧
    (∀ (f : Nat → Nat) (n : Nat),
      (kstream_fn_run { env with run_single := f } n kstream_fn_init).phase =
        (kstream_fn_run env n kstream_fn_init).phase ∧
      (kstream_fn_run { env with run_single := f } n kstream_fn_init).pfn =
        (kstream_fn_run env n kstream_fn_init).pfn ∧
      (kstream_fn_run { env with run_single := f } n kstream_fn_init).trace.filterMap
        Event.validated =
        (kstream_fn_run env n kstream_fn_init).trace.filterMap Event.validated ∧
      (kstream_fn_run { env with run_single := f } n kstream_fn_init).trace.map
        Event.forget_ret =
        (kstream_fn_run env n kstream_fn_init).trace.map Event.forget_ret) := by
  constructor
  · intro w hph hlt hs hv hr hret
    rcases kstream_fn_step_cases env w with
      ⟨h1 | h1, _⟩ | ⟨_, h1, _⟩ | ⟨_, _, h1, _⟩ | ⟨_, _, _, h1, _⟩ |
      ⟨_, _, _, h1, _⟩ | ⟨_, _, _, _, h1, _⟩ | ⟨_, _, _, _, _, h⟩ |
      ⟨h1, _⟩ | ⟨h1, _⟩
    · rw [hph] at h1
      cases h1
    · rw [hph] at h1
      cases h1
    · exact absurd hlt h1
    · rw [hs] at h1
      cases h1
    · rw [hv] at h1
      cases h1
    · rw [hv] at h1
      cases h1
    · exact absurd hr h1
    · rw [h, hret]
    · rw [hph] at h1
      cases h1
    · rw [hph] at h1
      cases h1
  · intro f n
    obtain ⟨hph, hpfn, _, htr⟩ := kstream_fn_run_forget env f n
    refine ⟨hph, hpfn, ?_, htr⟩
    rw [← filterMap_validated_forget, htr, filterMap_validated_forget]

/-- Witness for C12: in a scan in which every experiment returns `-EIO`, the first turn claims
the block at address 0, runs the experiment, releases the block and moves on to address 4. -/
theorem kstream_fn_experiment_failure_continues_witness :
    kstream_fn_step env_experiments_fail kstream_fn_init =
      ⟨Phase.scanning, (kstream_fn_init.pfn + env_experiments_fail.G) % U64,
        kstream_fn_init.polls + 1,
        kstream_fn_init.trace ++ [Event.validate kstream_fn_init.pfn true,
          Event.claim kstream_fn_init.pfn
            ((kstream_fn_init.pfn + env_experiments_fail.G) % U64) 0,
          Event.experiment kstream_fn_init.pfn (U64 - 5),
          Event.release kstream_fn_init.pfn env_experiments_fail.G, Event.resched]⟩ :=
  (kstream_fn_experiment_failure_continues env_experiments_fail).1 kstream_fn_init
    (by decide) (by decide) (by decide) (by decide) (by decide) (by decide)

/-! ### Alignment of the addresses of the scan -/

/-- When the granularity divides `2 ^ 64`, the loop variable of the scan is a multiple of it
after any number of turns, the `BUG_ON` of the validator has not fired, and every address
handed to the validator so far is a multiple of the granularity. -/
theorem kstream_fn_run_aligned (env : Env) (hdvd : env.G ∣ U64) (n : Nat) :
    (kstream_fn_run env n kstream_fn_init).phase ≠ Phase.bug ∧
    (kstream_fn_run env n kstream_fn_init).pfn % env.G = 0 ∧
    ∀ p, p ∈ (kstream_fn_run env n kstream_fn_init).trace.filterMap Event.validated →
      p % env.G = 0 := by
  induction n with
  | zero =>
    refine ⟨fun h => Phase.noConfusion h, Nat.zero_mod _, fun p hp => ?_⟩
    simp [kstream_fn_run, kstream_fn_init] at hp
  | succ n ih =>
    obtain ⟨hph, hal, hval⟩ := ih
    have hnext : (((kstream_fn_run env n kstream_fn_init).pfn + env.G) % U64) % env.G = 0 := by
      rw [Nat.mod_mod_of_dvd _ hdvd, Nat.add_mod_right]
      exact hal
    show (kstream_fn_step env (kstream_fn_run env n kstream_fn_init)).phase ≠ Phase.bug ∧
      (kstream_fn_step env (kstream_fn_run env n kstream_fn_init)).pfn % env.G = 0 ∧
      ∀ p, p ∈ (kstream_fn_step env (kstream_fn_run env n kstream_fn_init)).trace.filterMap
        Event.validated → p % env.G = 0
    rcases kstream_fn_step_cases env (kstream_fn_run env n kstream_fn_init) with
      ⟨_, h⟩ | ⟨_, _, h⟩ | ⟨_, _, _, h⟩ | ⟨_, _, _, hv, _⟩ | ⟨_, _, _, _, h⟩ |
      ⟨_, _, _, _, _, h⟩ | ⟨_, _, _, _, _, h⟩ | ⟨_, _, h⟩ | ⟨_, _, h⟩
    · rw [h]
      exact ⟨hph, hal, hval⟩
    · rw [h]
      exact ⟨fun h => Phase.noConfusion h, hal, hval⟩
    · rw [h]
      exact ⟨fun h => Phase.noConfusion h, hal, hval⟩
    · obtain ⟨v, hsome⟩ := kstream_block_valid_aligned env.mm env.G _ hal
      rw [hsome] at hv
      cases hv
    · rw [h]
      refine ⟨fun h => Phase.noConfusion h, hnext, fun p hp => ?_⟩
      simp only [List.filterMap_append, List.mem_append] at hp
      rcases hp with hp | hp
      · exact hval p hp
      · simp [Event.validated] at hp
        rw [hp]
        exact hal
    · rw [h]
      refine ⟨fun h => Phase.noConfusion h, hnext, fun p hp => ?_⟩
      simp only [List.filterMap_append, List.mem_append] at hp
      rcases hp with hp | hp
      · exact hval p hp
      · simp [Event.validated] at hp
        rw [hp]
        exact hal
    · rw [h]
      refine ⟨fun h => Phase.noConfusion h, hnext, fun p hp => ?_⟩
      simp only [List.filterMap_append, List.mem_append] at hp
      rcases hp with hp | hp
      · exact hval p hp
      · simp [Event.validated] at hp
        rw [hp]
        exact hal
    · rw [h]
      exact ⟨fun h => Phase.noConfusion h, hal, hval⟩
    · rw [h]
      refine ⟨fun h => Phase.noConfusion h, hal, fun p hp => ?_⟩
      simp only [List.filterMap_append, List.mem_append] at hp
      rcases hp with hp | hp
      · exact hval p hp
      · simp [Event.validated] at hp

/-- Claim C15: `MAX_ORDER_NR_PAGES` is a power of two; for every such granularity
`G = 2 ^ k` with `k ≤ 64`, every maximum address, validator, claim service and stop signal,
after any number of turns the `BUG_ON` of `kstream_block_valid` has not fired, the loop
variable is aligned to `G`, and every address that was handed to the validator is aligned to
`G`. -/
theorem kstream_fn_addresses_aligned (env : Env) (k : Nat) (hk : k ≤ 64) (hG : env.G = 2 ^ k)
    (n : Nat) :
    (kstream_fn_run env n kstream_fn_init).phase ≠ Phase.bug ∧
    IS_ALIGNED (kstream_fn_run env n kstream_fn_init).pfn env.G = true ∧
    ∀ p, p ∈ (kstream_fn_run env n kstream_fn_init).trace.filterMap Event.validated →
      IS_ALIGNED p env.G = true := by
  have hdvd : env.G ∣ U64 := by
    rw [hG]
    exact Nat.pow_dvd_pow 2 hk
  obtain ⟨hph, hal, hval⟩ := kstream_fn_run_aligned env hdvd n
  refine ⟨hph, by simp [IS_ALIGNED, hal], fun p hp => ?_⟩
  simp [IS_ALIGNED, hval p hp]

/-- Witness for C15: in the scan over 10 units in blocks of 4 = 2 ^ 2 in which every claim
succeeds, after 2 turns the worker is alive at an aligned address. -/
theorem kstream_fn_addresses_aligned_witness :
    (kstream_fn_run env_all_succeed 2 kstream_fn_init).phase ≠ Phase.bug ∧
    IS_ALIGNED (kstream_fn_run env_all_succeed 2 kstream_fn_init).pfn env_all_succeed.G = true :=
  ⟨(kstream_fn_addresses_aligned env_all_succeed 2 (by decide) (by decide) 2).1,
   (kstream_fn_addresses_aligned env_all_succeed 2 (by decide) (by decide) 2).2.1⟩

/-! ### Termination of the scan -/

/-- One scan step at an aligned address below the maximum, without stop signal: the worker
stays in the scan loop, moves to the next address, and the only address it hands to the
validator is the current one. -/
theorem kstream_fn_step_scan (env : Env) (w : Worker)
    (hph : w.phase = Phase.scanning) (hlt : w.pfn < env.max_pfn)
    (hstop : env.kthread_should_stop w.polls = false) (hal : w.pfn % env.G = 0) :
    (kstream_fn_step env w).phase = Phase.scanning ∧
    (kstream_fn_step env w).pfn = (w.pfn + env.G) % U64 ∧
    (kstream_fn_step env w).trace.filterMap Event.validated =
      w.trace.filterMap Event.validated ++ [w.pfn] := by
  rcases kstream_fn_step_cases env w with
    ⟨h1 | h1, _⟩ | ⟨_, h1, _⟩ | ⟨_, _, h1, _⟩ | ⟨_, _, _, h1, _⟩ |
    ⟨_, _, _, _, h⟩ | ⟨_, _, _, _, _, h⟩ | ⟨_, _, _, _, _, h⟩ |
    ⟨h1, _⟩ | ⟨h1, _⟩
  · rw [hph] at h1
    cases h1
  · rw [hph] at h1
    cases h1
  · exact absurd hlt h1
  · rw [hstop] at h1
    cases h1
  · obtain ⟨v, hsome⟩ := kstream_block_valid_aligned env.mm env.G _ hal
    rw [hsome] at h1
    cases h1
  · rw [h]
    exact ⟨rfl, rfl, by simp [List.filterMap_append, Event.validated]⟩
  · rw [h]
    exact ⟨rfl, rfl, by simp [List.filterMap_append, Event.validated]⟩
  · rw [h]
    exact ⟨rfl, rfl, by simp [List.filterMap_append, Event.validated]⟩
  · rw [hph] at h1
    cases h1
  · rw [hph] at h1
    cases h1

/-- When one of the two durations is 0, the experiment passes its check and ends in the
division by zero of the report line (lines 186-190): it does not return. -/
theorem kstream_run_single_zero_duration (clock : Nat → Nat) (total_bytes : Nat)
    (virt : Nat → Nat) (pfn : Nat) (s : Machine)
    (h : (kstream_run_single_runs clock total_bytes virt pfn s).2.1 = 0 ∨
      (kstream_run_single_runs clock total_bytes virt pfn s).1 = 0) :
    (kstream_run_single clock total_bytes virt pfn s).1 = Outcome.divide_error := by
  have hpass := kstream_run_single_check_passes clock total_bytes virt pfn s
  unfold kstream_run_single kstream_run_single_tail
  simp only [array_ptrs, hpass, Bool.not_true, Bool.false_eq_true, if_false]
  rw [if_pos h]

/-- Claim C6, evaluation of the code at the failing input: on a block of 4 MiB with the clock
that advances once every 16 readings, the cached duration is 0, the validation loop passes on
the memory left by the two runs (no element differs from element 0 of its array), and
`kstream_run_single` ends in the division by zero of the report line: it returns neither
`-EIO` nor 0. -/
theorem kstream_run_single_coarse_clock_no_return :
    (kstream_run_single_runs coarse_clock 4194304 (fun _ => 0) 0 machine0).1 = 0 ∧
    kstream_validate_loop
      (kstream_run_single_runs coarse_clock 4194304 (fun _ => 0) 0 machine0).2.2.mem
      0 (0 + array_size 4194304) (0 + array_size 4194304 + array_size 4194304)
      (array_size 4194304 - 1) 1 = true ∧
    (kstream_run_single coarse_clock 4194304 (fun _ => 0) 0 machine0).1 =
      Outcome.divide_error ∧
    (kstream_run_single coarse_clock 4194304 (fun _ => 0) 0 machine0).1.ret = none := by
  have h0 : (kstream_run_single_runs coarse_clock 4194304 (fun _ => 0) 0 machine0).1 = 0 := by
    decide
  have hout := kstream_run_single_zero_duration coarse_clock 4194304 (fun _ => 0) 0 machine0
    (Or.inr h0)
  refine ⟨h0, kstream_run_single_check_passes coarse_clock 4194304 (fun _ => 0) 0 machine0,
    hout, ?_⟩
  rw [hout]
  rfl

/-- Claim C18, evaluation of the code at the failing input: on a block of 4 MiB with a clock
that stands still, both durations are 0, each of the three arrays is uniform after the two runs
(`a[i] = a[0]`, `b[i] = b[0]`, `c[i] = c[0]` for every `i` below the element count, and the
validation loop passes), and `kstream_run_single` ends in the division by zero of the report
line instead of returning 0. -/
theorem kstream_run_single_frozen_clock_no_return :
    (kstream_run_single_runs frozen_clock 4194304 (fun _ => 0) 0 machine0).1 = 0 ∧
    (kstream_run_single_runs frozen_clock 4194304 (fun _ => 0) 0 machine0).2.1 = 0 ∧
    (∀ i, i < array_size 4194304 →
      (kstream_run_single_runs frozen_clock 4194304 (fun _ => 0) 0 machine0).2.2.mem (0 + i) =
        (kstream_run_single_runs frozen_clock 4194304 (fun _ => 0) 0 machine0).2.2.mem
          (0 + 0) ∧
      (kstream_run_single_runs frozen_clock 4194304 (fun _ => 0) 0 machine0).2.2.mem
          (0 + array_size 4194304 + i) =
        (kstream_run_single_runs frozen_clock 4194304 (fun _ => 0) 0 machine0).2.2.mem
          (0 + array_size 4194304 + 0) ∧
      (kstream_run_single_runs frozen_clock 4194304 (fun _ => 0) 0 machine0).2.2.mem
          (0 + array_size 4194304 + array_size 4194304 + i) =
        (kstream_run_single_runs frozen_clock 4194304 (fun _ => 0) 0 machine0).2.2.mem
          (0 + array_size 4194304 + array_size 4194304 + 0)) ∧
    kstream_validate_loop
      (kstream_run_single_runs frozen_clock 4194304 (fun _ => 0) 0 machine0).2.2.mem
      0 (0 + array_size 4194304) (0 + array_size 4194304 + array_size 4194304)
      (array_size 4194304 - 1) 1 = true ∧
    (kstream_run_single frozen_clock 4194304 (fun _ => 0) 0 machine0).1 =
      Outcome.divide_error ∧
    (kstream_run_single frozen_clock 4194304 (fun _ => 0) 0 machine0).1.ret ≠ some 0 := by
  have h0 : (kstream_run_single_runs frozen_clock 4194304 (fun _ => 0) 0 machine0).1 = 0 := by
    decide
  have h1 : (kstream_run_single_runs frozen_clock 4194304 (fun _ => 0) 0 machine0).2.1 = 0 := by
    decide
  have hout := kstream_run_single_zero_duration frozen_clock 4194304 (fun _ => 0) 0 machine0
    (Or.inr h0)
  have hz := kstream_run_single_runs_elem frozen_clock 4194304 (fun _ => 0) 0 machine0 0
    (by decide)
  have hu : ∀ i, i < array_size 4194304 →
      (kstream_run_single_runs frozen_clock 4194304 (fun _ => 0) 0 machine0).2.2.mem (0 + i) =
        (kstream_run_single_runs frozen_clock 4194304 (fun _ => 0) 0 machine0).2.2.mem
          (0 + 0) ∧
      (kstream_run_single_runs frozen_clock 4194304 (fun _ => 0) 0 machine0).2.2.mem
          (0 + array_size 4194304 + i) =
        (kstream_run_single_runs frozen_clock 4194304 (fun _ => 0) 0 machine0).2.2.mem
          (0 + array_size 4194304 + 0) ∧
      (kstream_run_single_runs frozen_clock 4194304 (fun _ => 0) 0 machine0).2.2.mem
          (0 + array_size 4194304 + array_size 4194304 + i) =
        (kstream_run_single_runs frozen_clock 4194304 (fun _ => 0) 0 machine0).2.2.mem
          (0 + array_size 4194304 + array_size 4194304 + 0) := fun i hi =>
    have hi2 := kstream_run_single_runs_elem frozen_clock 4194304 (fun _ => 0) 0 machine0 i hi
    ⟨hi2.1.trans hz.1.symm, hi2.2.1.trans hz.2.1.symm, hi2.2.2.trans hz.2.2.symm⟩
  refine ⟨h0, h1, hu,
    kstream_run_single_check_passes frozen_clock 4194304 (fun _ => 0) 0 machine0, hout, ?_⟩
  rw [hout]
  intro h
  cases h

/-! ### The top of the address range -/

/-- In a scan with granularity 1024 and maximum address `2 ^ 64 - 1` in which no stop signal is
raised, the worker is, after any number of turns, in the scan loop at a multiple of 1024 below
`2 ^ 64`, whatever the validator and the claim service answer. -/
theorem kstream_fn_run_wraps (env : Env) (hM : env.max_pfn = U64 - 1) (hG : env.G = 1024)
    (hstop : ∀ k, env.kthread_should_stop k = false) (n : Nat) :
    (kstream_fn_run env n kstream_fn_init).phase = Phase.scanning ∧
    (kstream_fn_run env n kstream_fn_init).pfn % 1024 = 0 ∧
    (kstream_fn_run env n kstream_fn_init).pfn < U64 := by
  induction n with
  | zero => exact ⟨rfl, rfl, (by decide : (0 : Nat) < U64)⟩
  | succ n ih =>
    obtain ⟨hph, hal, hlt⟩ := ih
    have hmax : (kstream_fn_run env n kstream_fn_init).pfn < env.max_pfn := by
      rw [hM]
      unfold U64 at hlt ⊢
      omega
    have hal2 : (kstream_fn_run env n kstream_fn_init).pfn % env.G = 0 := by
      rw [hG]
      exact hal
    obtain ⟨sph, spfn, _⟩ := kstream_fn_step_scan env
      (kstream_fn_run env n kstream_fn_init) hph hmax (hstop _) hal2
    show (kstream_fn_step env (kstream_fn_run env n kstream_fn_init)).phase =
        Phase.scanning ∧
      (kstream_fn_step env (kstream_fn_run env n kstream_fn_init)).pfn % 1024 = 0 ∧
      (kstream_fn_step env (kstream_fn_run env n kstream_fn_init)).pfn < U64
    rw [spfn, hG]
    refine ⟨sph, ?_, Nat.mod_lt _ (by decide)⟩
    unfold U64
    omega

/-- Counterexample for C10 as stated: with `G = 1024` and the maximum address `2 ^ 64 - 1`,
every claim attempt failing and no stop signal raised, the scan never reaches the idle wait:
after the block at `2 ^ 64 - 1024` the loop variable wraps to 0 and the scan starts over. -/
theorem kstream_fn_all_claims_fail_never_idles :
    (∀ t p, env_wrap_claims_fail.alloc_contig_range t p ≠ 0) ∧
    (∀ k, env_wrap_claims_fail.kthread_should_stop k = false) ∧
    ¬ ∃ n, (kstream_fn_run env_wrap_claims_fail n kstream_fn_init).phase = Phase.idle_wait := by
  refine ⟨fun _ _ => (by decide : (-16 : Int) ≠ 0), fun _ => rfl, ?_⟩
  rintro ⟨n, hn⟩
  rw [(kstream_fn_run_wraps env_wrap_claims_fail rfl rfl (fun _ => rfl) n).1] at hn
  cases hn

/-- Counterexample for C16 as stated: the start address `2 ^ 64 - 4` is aligned to `G = 4`; in
a memory map in which the second unit of that block, `2 ^ 64 - 3`, is reserved,
`kstream_block_valid` returns `true` after the single lookup of the first unit, because
`end_pfn` wraps to 0 and the loop does not run: it is not the case that the verdict is true
exactly when every unit of `[start + 1, start + G)` is unreserved. -/
theorem kstream_block_valid_top_block :
    IS_ALIGNED (U64 - 4) 4 = true ∧
    kstream_block_valid mm_top_second_reserved 4 (U64 - 4) = some true ∧
    kstream_block_valid_probes mm_top_second_reserved 4 (U64 - 4) = some (true, [U64 - 4]) ∧
    ¬ (kstream_block_valid mm_top_second_reserved 4 (U64 - 4) = some true ↔
      ∃ first, mm_top_second_reserved.pfn_to_online_page (U64 - 4) = some first ∧
        ∀ p, U64 - 4 + 1 ≤ p → p < U64 - 4 + 4 →
          ∃ page, mm_top_second_reserved.pfn_to_online_page p = some page ∧
            page.zone = first.zone ∧
            mm_top_second_reserved.zone_spans_pfn first.zone p = true ∧
            page.reserved = false) := by
  have hv : kstream_block_valid mm_top_second_reserved 4 (U64 - 4) = some true := by decide
  refine ⟨by decide, hv, by decide, ?_⟩
  intro hiff
  obtain ⟨first, _, hall⟩ := hiff.1 hv
  obtain ⟨page, hp, _, _, hr⟩ := hall (U64 - 3) (by decide) (by decide)
  have hpage : page = ⟨0, true⟩ := by
    have : mm_top_second_reserved.pfn_to_online_page (U64 - 3) = some ⟨0, true⟩ := by decide
    rw [this] at hp
    exact (Option.some.inj hp).symm
  rw [hpage] at hr
  cases hr

end Kstream
